import Mathlib

/-!
# Table printing helper: `tools/vsh-table.c`

A shallow embedding of the table helper of the virt shell and a verification
of its documented behaviour.

Conventions of the embedding.

* A cell is a C string; it is embedded as a `String`, and `strlen` is its
  length in bytes.
* The variadic, NULL terminated argument lists of `vshTableNew` and
  `vshTableRowAppend` are embedded as the list of the arguments that come
  before the terminating NULL. A NULL first argument is the empty list.
* `struct _vshTableRow` and `struct _vshTable` keep a pointer and a count
  that `VIR_APPEND_ELEMENT` updates together; they are embedded as lists and
  `ncells`, `nrows` are the lengths.
* The allocation wrappers (`VIR_ALLOC`, `VIR_ALLOC_N`, `VIR_STRDUP`,
  `VIR_APPEND_ELEMENT`) are embedded in their successful case:
  `VIR_ALLOC_N` yields zero filled storage, `VIR_APPEND_ELEMENT` moves the
  element to the end of the array and clears the original pointer.
* `size_t` is 64 bits wide. Arithmetic on `size_t` is written with an explicit
  reduction modulo `2 ^ 64`.
* Reads and writes of the width arrays are bounds checked in the embedding:
  an access outside the allocated storage ends the run with
  `Abort.outOfBounds`.
* The locale (`mbstowcs`, `wcswidth`) is a parameter of every function that
  measures text.
-/

namespace VshTable

/-! ## Data model -/

/-- One row of a table, `struct _vshTableRow`. -/
structure vshTableRow where
  /-- The texts of the cells, `row->cells[0 .. row->ncells - 1]`. -/
  cells : List String
deriving DecidableEq

/-- The field `ncells` of a row. -/
def vshTableRow.ncells (row : vshTableRow) : Nat := row.cells.length

/-- A table, `struct _vshTable`; `rows[0]` is the header. -/
structure vshTable where
  /-- The rows, `table->rows[0 .. table->nrows - 1]`. -/
  rows : List vshTableRow
deriving DecidableEq

/-- The field `nrows` of a table. -/
def vshTable.nrows (table : vshTable) : Nat := table.rows.length

/-- Error codes of `virReportError` that matter here. -/
inductive virErrorNumber
  | VIR_ERR_INTERNAL_ERROR
  | VIR_ERR_NO_MEMORY
  | VIR_ERR_INVALID_ARG
deriving DecidableEq

/-- What a call of `virReportError` records: the code and the message. -/
structure virError where
  code : virErrorNumber
  message : String
deriving DecidableEq

/-- The report of `vshTableRowNew` for a NULL first argument. -/
def errRowEmpty : virError :=
  ⟨virErrorNumber.VIR_ERR_INTERNAL_ERROR, "Table row cannot be empty"⟩

/-- The report of `vshTableRowAppend` for a row whose cell count differs from
the header. -/
def errCellCount : virError :=
  ⟨virErrorNumber.VIR_ERR_INTERNAL_ERROR, "Incorrect number of cells in a table row"⟩

/-- Ways in which a run of the width and print code ends early. -/
inductive Abort
  /-- The call of `wcswidth` returned a negative value: `goto cleanup` with
  `ret = -1`. -/
  | negativeWidth
  /-- An access outside the allocated storage (undefined behaviour in C). -/
  | outOfBounds
deriving DecidableEq

/-! ## Construction -/

/-- The `while (arg)` loop of `vshTableRowNew`: duplicate the argument and
append it to the cells of the row, then take the next argument. -/
def vshTableRowNew.fill (row : vshTableRow) : List String → vshTableRow
  | [] => row
  | arg :: ap => vshTableRowNew.fill { cells := row.cells ++ [arg] } ap

/-- The function `vshTableRowNew`: a new row from the arguments, or NULL (with the error
that was reported) when the first argument is NULL. -/
def vshTableRowNew (args : List String) : Except virError vshTableRow :=
  match args with
  | [] => Except.error errRowEmpty
  | arg :: ap => Except.ok (vshTableRowNew.fill { cells := [] } (arg :: ap))

/-- The function `vshTableNew`: a new table whose only row is the header, or NULL (with the
error that was reported). -/
def vshTableNew (args : List String) : Except virError vshTable :=
  let table : vshTable := { rows := [] }
  match vshTableRowNew args with
  | Except.error e => Except.error e
  | Except.ok header => Except.ok { rows := table.rows ++ [header] }

/-- What a call of `vshTableRowAppend` leaves behind: the returned integer,
the table after the call and the error reported during the call, if any. -/
structure AppendResult where
  ret : Int
  table : vshTable
  reported : Option virError
deriving DecidableEq

/-- The function `vshTableRowAppend`. Reading `table->rows[0]` of a table without rows is
an access outside the allocated storage. -/
def vshTableRowAppend (table : vshTable) (args : List String) :
    Except Abort AppendResult :=
  match table.rows.head? with
  | none => Except.error Abort.outOfBounds
  | some header =>
    let ncolumns := header.ncells
    match vshTableRowNew args with
    | Except.error e => Except.ok ⟨-1, table, some e⟩
    | Except.ok row =>
      if ncolumns ≠ row.ncells then
        Except.ok ⟨-1, table, some errCellCount⟩
      else
        Except.ok ⟨0, { rows := table.rows ++ [row] }, none⟩

/-! ## Width computation -/

/-- The two functions of the C library that measure text, under the active
locale. `mbstowcs` yields the wide characters of a string, or `none` for the
return value `(size_t) -1`; `wcswidth` yields an `int`, negative when the wide
string has no width. -/
structure Locale where
  mbstowcs : String → Option (List Char)
  wcswidth : List Char → Int

/-- The function `strlen`: the number of bytes of a string. -/
def strlen (s : String) : Nat := s.utf8ByteSize

/-- Number of values of `size_t`. -/
def SIZE_MOD : Nat := 2 ^ 64

/-- Checked read `a[j]`. -/
def load {α : Type} (a : List α) (j : Nat) : Except Abort α :=
  match a[j]? with
  | some v => Except.ok v
  | none => Except.error Abort.outOfBounds

/-- Checked write `a[j] = v`. -/
def store {α : Type} (a : List α) (j : Nat) (v : α) : Except Abort (List α) :=
  if j < a.length then Except.ok (a.set j v) else Except.error Abort.outOfBounds

/-- The value `len` that the body of the inner loop of
`vshTableGetColumnsWidths` computes for one cell: the byte length when
`mbstowcs` fails, else the result of `wcswidth`, cast through `unsigned` to
`size_t`; a negative `wcswidth` leaves through `cleanup`. -/
def vshTableGetColumnsWidths.len (L : Locale) (cell : String) : Except Abort Nat :=
  let wstrlen := strlen cell
  match L.mbstowcs cell with
  | none => Except.ok wstrlen
  | some wstr =>
    let tmp := L.wcswidth wstr
    if tmp < 0 then Except.error Abort.negativeWidth
    else Except.ok (tmp % 2 ^ 32).toNat

/-- The inner loop `for (j = 0; j < row->ncells; j++)` of
`vshTableGetColumnsWidths`, from column `j` on; the list holds
`row->cells[j ..]`. -/
def vshTableGetColumnsWidths.cells (L : Locale) :
    Nat → List String → List Nat → List Nat → Except Abort (List Nat × List Nat)
  | _, [], maxwidths, widths => Except.ok (maxwidths, widths)
  | j, cell :: rest, maxwidths, widths =>
    match vshTableGetColumnsWidths.len L cell with
    | Except.error e => Except.error e
    | Except.ok len =>
      match store widths j len with
      | Except.error e => Except.error e
      | Except.ok widths =>
        match load maxwidths j with
        | Except.error e => Except.error e
        | Except.ok m =>
          if len > m then
            match store maxwidths j len with
            | Except.error e => Except.error e
            | Except.ok maxwidths =>
              vshTableGetColumnsWidths.cells L (j + 1) rest maxwidths widths
          else
            vshTableGetColumnsWidths.cells L (j + 1) rest maxwidths widths

/-- The outer loop `for (; i < table->nrows; i++)` of
`vshTableGetColumnsWidths`, from row `i` on; the list holds
`table->rows[i ..]`. -/
def vshTableGetColumnsWidths.rows (L : Locale) :
    Nat → List vshTableRow → List Nat → List (List Nat) →
      Except Abort (List Nat × List (List Nat))
  | _, [], maxwidths, widths => Except.ok (maxwidths, widths)
  | i, row :: rest, maxwidths, widths =>
    match load widths i with
    | Except.error e => Except.error e
    | Except.ok wi =>
      match vshTableGetColumnsWidths.cells L 0 row.cells maxwidths wi with
      | Except.error e => Except.error e
      | Except.ok (maxwidths, wi) =>
        match store widths i wi with
        | Except.error e => Except.error e
        | Except.ok widths =>
          vshTableGetColumnsWidths.rows L (i + 1) rest maxwidths widths

/-- The function `vshTableGetColumnsWidths`: fill `maxwidths` and `widths`. The result
`Except.ok` is the return value 0 with the arrays as filled; the result
`Except.error Abort.negativeWidth` is the return value -1. -/
def vshTableGetColumnsWidths (L : Locale) (table : vshTable)
    (maxwidths : List Nat) (widths : List (List Nat)) (header : Bool) :
    Except Abort (List Nat × List (List Nat)) :=
  let i := if header then 0 else 1
  vshTableGetColumnsWidths.rows L i (table.rows.drop i) maxwidths widths

/-! ## Printing -/

/-- The control structure of the shell; only `quiet` is read here. -/
structure vshControl where
  quiet : Bool
deriving DecidableEq

/-- The two print functions of the shell that the table code calls. -/
inductive vshPrintCB
  | vshPrintExtra
  | vshPrint
deriving DecidableEq

/-- Modelled from the spec: the growable string buffer collaborator
(`virbuffer.c` is not among the sources). It supports appending text and
extracting the final contents; `content` is the text accumulated so far. -/
structure virBuffer where
  content : String
deriving DecidableEq

/-- Modelled from the spec: the initial, empty buffer
(`VIR_BUFFER_INITIALIZER`). -/
def VIR_BUFFER_INITIALIZER : virBuffer := ⟨""⟩

/-- Modelled from the spec: append a string to the buffer (`virBufferAddStr`,
and `virBufferAsprintf` once the format is expanded). -/
def virBufferAddStr (buf : virBuffer) (s : String) : virBuffer :=
  ⟨buf.content ++ s⟩

/-- Modelled from the spec: extract the final contents of the buffer
(`virBufferContentAndReset`). The specification gives the contents as the
result whatever was appended, so a buffer to which nothing was appended yields
the empty text. -/
def virBufferContentAndReset (buf : virBuffer) : Option String :=
  some buf.content

/-- Everything a run of the print code has written so far: the fragments
passed to the print functions of the shell, in order and with the function
that received them, and the string buffer. -/
structure Output where
  stdout : List (vshPrintCB × String)
  buf : virBuffer
deriving DecidableEq

/-- One write: to the print function when `toStdout`, else to the buffer. -/
def Output.emit (o : Output) (toStdout : Bool) (printCB : vshPrintCB) (s : String) :
    Output :=
  if toStdout then { o with stdout := o.stdout ++ [(printCB, s)] }
  else { o with buf := virBufferAddStr o.buf s }

/-- A loop `for (j = 0; j < n; j++)` whose body writes the string `s`. -/
def Output.emitN (toStdout : Bool) (printCB : vshPrintCB) (s : String) :
    Nat → Output → Output
  | 0, o => o
  | n + 1, o => Output.emitN toStdout printCB s n (o.emit toStdout printCB s)

/-- The bound `maxwidths[i] - widths[i] + 2` of the padding loop of
`vshTableRowPrint`, computed in `size_t`. -/
def vshTableRowPrint.padding (m w : Nat) : Nat :=
  ((m % SIZE_MOD + SIZE_MOD - w % SIZE_MOD) % SIZE_MOD + 2) % SIZE_MOD

/-- The loop `for (i = 0; i < row->ncells; i++)` of `vshTableRowPrint`, from
cell `i` on; the list holds `row->cells[i ..]`. -/
def vshTableRowPrint.cells (maxwidths widths : List Nat) (printCB : vshPrintCB)
    (toStdout : Bool) : Nat → List String → Output → Except Abort Output
  | _, [], o => Except.ok o
  | i, cell :: rest, o =>
    let o := o.emit toStdout printCB (" " ++ cell)
    match load maxwidths i with
    | Except.error e => Except.error e
    | Except.ok m =>
      match load widths i with
      | Except.error e => Except.error e
      | Except.ok w =>
        vshTableRowPrint.cells maxwidths widths printCB toStdout (i + 1) rest
          (Output.emitN toStdout printCB " " (vshTableRowPrint.padding m w) o)

/-- The function `vshTableRowPrint`: the cells of one row with their padding, then a
newline. -/
def vshTableRowPrint (row : vshTableRow) (maxwidths widths : List Nat)
    (printCB : vshPrintCB) (o : Output) (toStdout : Bool) : Except Abort Output :=
  match vshTableRowPrint.cells maxwidths widths printCB toStdout 0 row.cells o with
  | Except.error e => Except.error e
  | Except.ok o => Except.ok (o.emit toStdout printCB "\n")

/-- The loop that prints the dividing line in `vshTablePrint`, from column `i`
on, with `n` columns left: `maxwidths[i] + 3` dashes for each column. -/
def vshTablePrint.divider (maxwidths : List Nat) (toStdout : Bool) :
    Nat → Nat → Output → Except Abort Output
  | _, 0, o => Except.ok o
  | i, n + 1, o =>
    match load maxwidths i with
    | Except.error e => Except.error e
    | Except.ok m =>
      vshTablePrint.divider maxwidths toStdout (i + 1) n
        (Output.emitN toStdout vshPrintCB.vshPrintExtra "-" ((m % SIZE_MOD + 3) % SIZE_MOD) o)

/-- The loop `for (i = 1; i < table->nrows; i++)` that prints the content in
`vshTablePrint`, from row `i` on; the list holds `table->rows[i ..]`. -/
def vshTablePrint.content (maxwidths : List Nat) (widths : List (List Nat))
    (toStdout : Bool) : Nat → List vshTableRow → Output → Except Abort Output
  | _, [], o => Except.ok o
  | i, row :: rest, o =>
    match load widths i with
    | Except.error e => Except.error e
    | Except.ok wi =>
      match vshTableRowPrint row maxwidths wi vshPrintCB.vshPrint o toStdout with
      | Except.error e => Except.error e
      | Except.ok o => vshTablePrint.content maxwidths widths toStdout (i + 1) rest o

/-- The header and the dividing line, the branch `if (header)` of
`vshTablePrint`. -/
def vshTablePrint.head (row0 : vshTableRow) (maxwidths : List Nat)
    (widths : List (List Nat)) (toStdout : Bool) (o : Output) : Except Abort Output :=
  match load widths 0 with
  | Except.error e => Except.error e
  | Except.ok w0 =>
    match vshTableRowPrint row0 maxwidths w0 vshPrintCB.vshPrintExtra o toStdout with
    | Except.error e => Except.error e
    | Except.ok o =>
      match vshTablePrint.divider maxwidths toStdout 0 row0.ncells o with
      | Except.error e => Except.error e
      | Except.ok o => Except.ok (o.emit toStdout vshPrintCB.vshPrintExtra "\n")

/-- What a call of `vshTablePrint` leaves behind: the returned string (`none`
is NULL) and the fragments passed to the print functions of the shell. -/
structure PrintResult where
  ret : Option String
  stdout : List (vshPrintCB × String)
deriving DecidableEq

/-- The function `vshTablePrint`. The control structure is only handed on to the print
functions, so it does not appear. -/
def vshTablePrint (L : Locale) (table : vshTable) (header toStdout : Bool) :
    Except Abort PrintResult :=
  match table.rows.head? with
  | none => Except.error Abort.outOfBounds
  | some row0 =>
    let maxwidths := List.replicate row0.ncells 0
    let widths := List.replicate table.nrows (List.replicate row0.ncells 0)
    match vshTableGetColumnsWidths L table maxwidths widths header with
    | Except.error Abort.negativeWidth => Except.ok ⟨none, []⟩
    | Except.error Abort.outOfBounds => Except.error Abort.outOfBounds
    | Except.ok (maxwidths, widths) =>
      let o : Output := ⟨[], VIR_BUFFER_INITIALIZER⟩
      match (if header then vshTablePrint.head row0 maxwidths widths toStdout o
             else Except.ok o) with
      | Except.error e => Except.error e
      | Except.ok o =>
        match vshTablePrint.content maxwidths widths toStdout 1 (table.rows.drop 1) o with
        | Except.error e => Except.error e
        | Except.ok o =>
          Except.ok ⟨if toStdout then none else virBufferContentAndReset o.buf, o.stdout⟩

/-- The function `vshTablePrintToStdout`: the header is printed unless the control
structure is there and quiet. -/
def vshTablePrintToStdout (L : Locale) (table : vshTable) (ctl : Option vshControl) :
    Except Abort PrintResult :=
  let header :=
    match ctl with
    | some c => !c.quiet
    | none => true
  vshTablePrint L table header true

/-- The function `vshTablePrintToString`. -/
def vshTablePrintToString (L : Locale) (table : vshTable) (header : Bool) :
    Except Abort PrintResult :=
  vshTablePrint L table header false

/-! ## Well-formed tables -/

/-- A table is well formed when it has a header row and every row has as many
cells as the header. -/
def vshTable.wellFormed (table : vshTable) : Prop :=
  match table.rows with
  | [] => False
  | header :: rest => ∀ row ∈ rest, row.ncells = header.ncells

instance (table : vshTable) : Decidable table.wellFormed := by
  unfold vshTable.wellFormed
  split <;> infer_instance

/-- The cells of a table are C strings that fit in memory: the byte length of
each, and three more, is a value of `size_t`. -/
def vshTable.representable (table : vshTable) : Prop :=
  ∀ row ∈ table.rows, ∀ cell ∈ row.cells, strlen cell + 3 < SIZE_MOD

instance (table : vshTable) : Decidable table.representable := by
  unfold vshTable.representable
  infer_instance

/-! ## Sample data -/

/-- A sample locale: every string converts, a character below U+0020 or
U+007F has no width, a character from U+1100 on takes two columns and every
other character takes one. -/
def sampleLocale : Locale where
  mbstowcs := fun s => some s.data
  wcswidth := fun ws =>
    if ws.any (fun c => decide (c.toNat < 32) || decide (c.toNat = 127)) then -1
    else ((ws.map (fun c => if c.toNat < 4352 then 1 else 2)).sum : Nat)

/-- The table of `testVshTableHeader`. -/
def sampleTable : vshTable :=
  { rows := [⟨["Id", "Name", "State"]⟩, ⟨["1", "fedora28", "running"]⟩,
             ⟨["2", "rhel7.5", "running"]⟩] }

/-! ## Definitions of the specification -/

/-- The widths of the cells of one row, as the inner loop of
`vshTableGetColumnsWidths` records them, or the way the loop ends early. -/
def measureCells (L : Locale) : List String → Except Abort (List Nat)
  | [] => Except.ok []
  | cell :: rest =>
    match vshTableGetColumnsWidths.len L cell with
    | Except.error e => Except.error e
    | Except.ok n =>
      match measureCells L rest with
      | Except.error e => Except.error e
      | Except.ok ns => Except.ok (n :: ns)

/-- The widths of the cells of a list of rows, row by row. -/
def measureRows (L : Locale) : List vshTableRow → Except Abort (List (List Nat))
  | [] => Except.ok []
  | row :: rest =>
    match measureCells L row.cells with
    | Except.error e => Except.error e
    | Except.ok ns =>
      match measureRows L rest with
      | Except.error e => Except.error e
      | Except.ok nss => Except.ok (ns :: nss)

/-- The string made of `n` copies of the character `c`. -/
def chars (c : Char) (n : Nat) : String := ⟨List.replicate n c⟩

/-- The cells of a printed row as the specification words them: for each
column in order one space, the text of the cell, and then as many spaces as
the maximum of the column exceeds the width of the cell, and two more. -/
def rowFields : List Nat → List Nat → List String → String
  | m :: maxwidths, w :: widths, cell :: cells =>
    " " ++ cell ++ chars ' ' (m - w + 2) ++ rowFields maxwidths widths cells
  | _, _, _ => ""

/-- A printed row as the specification words it: the cells with their
padding, then one newline. -/
def rowLine (maxwidths widths : List Nat) (row : vshTableRow) : String :=
  rowFields maxwidths widths row.cells ++ "\n"

/-- The dividing line as the specification words it: for every column its
maximum and three more dashes, then one newline. -/
def dividerLine (maxwidths : List Nat) : String :=
  chars '-' (maxwidths.map (fun m => m + 3)).sum ++ "\n"

/-- The lines of a list of rows, each with its own widths, in order. -/
def bodyLines (maxwidths : List Nat) : List vshTableRow → List (List Nat) → String
  | row :: rows, w :: widths => rowLine maxwidths w row ++ bodyLines maxwidths rows widths
  | _, _ => ""

/-- The text that reached the print functions of the shell: the fragments
joined in the order in which they were passed. -/
def fragmentsText (frags : List (vshPrintCB × String)) : String :=
  String.join (frags.map Prod.snd)

/-- A streaming run and a buffered run have written the same text. -/
def Output.sameText (os ob : Output) : Prop :=
  fragmentsText os.stdout = ob.buf.content

/-- Two runs of a print loop, one streaming and one buffered, end alike: both
with the same text written, or both with the same early end. -/
def sameRun (x y : Except Abort Output) : Prop :=
  match x, y with
  | Except.ok os, Except.ok ob => os.sameText ob
  | Except.error e, Except.error f => e = f
  | _, _ => False

/-- The measured width of what `vshTableRowPrint` writes for each cell of a
row: the leading space, the measured width of the cell, and the spaces of the
padding loop. -/
def fieldWidths (maxwidths widths : List Nat) : List Nat :=
  List.zipWith (fun m w => 1 + w + vshTableRowPrint.padding m w) maxwidths widths

/-- A table whose second column holds two texts of the same display width and
different byte lengths. -/
def accentTable : vshTable :=
  { rows := [⟨["Id", "Name"]⟩, ⟨["1", "cafe"]⟩, ⟨["2", "café"]⟩] }

/-- The third table of `testNTables`: one column, four data rows. -/
def singleColumnTable : vshTable :=
  { rows := [⟨["Id"]⟩, ⟨["1"]⟩, ⟨["2"]⟩, ⟨["3"]⟩, ⟨["4"]⟩] }

/-- The tables that a program can hold: those that a successful `vshTableNew`
returns, and those that a call of `vshTableRowAppend` on such a table leaves
behind, whether the call succeeded or failed. -/
inductive Reachable : vshTable → Prop
  | created (args : List String) (table : vshTable) :
      vshTableNew args = Except.ok table → Reachable table
  | appended (table : vshTable) (args : List String) (r : AppendResult) :
      Reachable table → vshTableRowAppend table args = Except.ok r → Reachable r.table

/-- A cell has no width under the locale: its text converts and `wcswidth`
reports a negative width for the converted text. -/
def noWidth (L : Locale) (cell : String) : Prop :=
  match L.mbstowcs cell with
  | some wstr => L.wcswidth wstr < 0
  | none => False

instance (L : Locale) (cell : String) : Decidable (noWidth L cell) := by
  unfold noWidth
  split <;> infer_instance

/-- The rows that `vshTableGetColumnsWidths` measures: all rows when the
header flag is set, the rows after the header otherwise. -/
def measuredRows (table : vshTable) (header : Bool) : List vshTableRow :=
  table.rows.drop (if header then 0 else 1)

/-- A sample single byte locale: a string with a character from U+0080 on does
not convert; the widths are those of `sampleLocale`. -/
def asciiLocale : Locale where
  mbstowcs := fun s => if s.data.all (fun c => decide (c.toNat < 128)) then some s.data else none
  wcswidth := sampleLocale.wcswidth

/-- A table whose header holds a tabulator, a character without width. -/
def controlTable : vshTable :=
  { rows := [⟨["Id\t"]⟩, ⟨["1"]⟩] }

/-- The table of `testVshTableHeader` under other column names. -/
def renamedTable : vshTable :=
  { rows := [⟨["Identifier", "N", ""]⟩, ⟨["1", "fedora28", "running"]⟩,
             ⟨["2", "rhel7.5", "running"]⟩] }

/-- The second table of `testNTables`: a header and no data rows. -/
def headerOnlyTable : vshTable :=
  { rows := [⟨["Id", "Name", "Status"]⟩] }

/-- The cells of a row as text, each with a given number of padding spaces:
for each cell one space, the text of the cell, and that many spaces. -/
def paddedFields : List String → List Nat → String
  | cell :: cells, p :: pads => " " ++ cell ++ chars ' ' p ++ paddedFields cells pads
  | _, _ => ""

/-- The cells of a row as the fragments of a streaming run, each with a given
number of padding spaces: for each cell the fragment of one space and the text
of the cell, and then that many fragments of one space. -/
def paddedFragments (printCB : vshPrintCB) :
    List String → List Nat → List (vshPrintCB × String)
  | cell :: cells, p :: pads =>
    (printCB, " " ++ cell) ::
      (List.replicate p (printCB, " ") ++ paddedFragments printCB cells pads)
  | _, _ => []

/-! ## Lemmas on the loops -/

theorem fill_eq (args : List String) :
    ∀ row : vshTableRow, vshTableRowNew.fill row args = { cells := row.cells ++ args } := by
  induction args with
  | nil => intro row; simp [vshTableRowNew.fill]
  | cons a ap ih => intro row; simp [vshTableRowNew.fill, ih]

theorem vshTableRowNew_cons (arg : String) (ap : List String) :
    vshTableRowNew (arg :: ap) = Except.ok { cells := arg :: ap } := by
  simp [vshTableRowNew, fill_eq]

theorem load_append_length {α : Type} (pre rest : List α) (x : α) :
    load (pre ++ x :: rest) pre.length = Except.ok x := by
  have h : (pre ++ x :: rest)[pre.length]? = some x := by
    induction pre with
    | nil => simp
    | cons a pre ih => simpa using ih
  simp only [load, h]

theorem store_append_length {α : Type} (pre rest : List α) (x v : α) :
    store (pre ++ x :: rest) pre.length v = Except.ok (pre ++ v :: rest) := by
  simp [store]

theorem cells_loop_eq (L : Locale) :
    ∀ (cells : List String) (mpre mmid wpre wmid : List Nat),
      mmid.length = cells.length → wmid.length = cells.length →
      wpre.length = mpre.length →
      vshTableGetColumnsWidths.cells L mpre.length cells (mpre ++ mmid) (wpre ++ wmid) =
        match measureCells L cells with
        | Except.error e => Except.error e
        | Except.ok ns => Except.ok (mpre ++ List.zipWith max mmid ns, wpre ++ ns) := by
  intro cells
  induction cells with
  | nil =>
    intro mpre mmid wpre wmid hm hw _
    have h1 : mmid = [] := List.length_eq_zero.mp hm
    have h2 : wmid = [] := List.length_eq_zero.mp hw
    subst h1 h2
    simp [vshTableGetColumnsWidths.cells, measureCells]
  | cons cell rest ih =>
    intro mpre mmid wpre wmid hm hw hpre
    cases mmid with
    | nil => simp at hm
    | cons m mmid =>
      cases wmid with
      | nil => simp at hw
      | cons w wmid =>
        simp only [List.length_cons, Nat.add_right_cancel_iff] at hm hw
        unfold vshTableGetColumnsWidths.cells measureCells
        cases hlen : vshTableGetColumnsWidths.len L cell with
        | error e => rfl
        | ok n =>
          simp only []
          rw [← hpre, store_append_length, hpre, load_append_length]
          have key : ∀ x : Nat,
              vshTableGetColumnsWidths.cells L (mpre.length + 1) rest
                (mpre ++ x :: mmid) (wpre ++ n :: wmid) =
              match measureCells L rest with
              | Except.error e => Except.error e
              | Except.ok ns =>
                Except.ok (mpre ++ x :: List.zipWith max mmid ns, wpre ++ n :: ns) := by
            intro x
            have := ih (mpre ++ [x]) mmid (wpre ++ [n]) wmid hm hw (by simp [hpre])
            simpa using this
          by_cases hgt : n > m
          · simp only [hgt, if_true, store_append_length]
            rw [key]
            cases measureCells L rest with
            | error e => rfl
            | ok ns => simp [List.zipWith, Nat.max_eq_right (Nat.le_of_lt hgt)]
          · simp only [hgt, if_false]
            rw [key]
            cases measureCells L rest with
            | error e => rfl
            | ok ns => simp [List.zipWith, Nat.max_eq_left (Nat.le_of_not_gt hgt)]

theorem measureCells_length (L : Locale) :
    ∀ (cells : List String) (ns : List Nat),
      measureCells L cells = Except.ok ns → ns.length = cells.length := by
  intro cells
  induction cells with
  | nil => intro ns h; simp [measureCells] at h; simp [← h]
  | cons cell rest ih =>
    intro ns h
    unfold measureCells at h
    cases hlen : vshTableGetColumnsWidths.len L cell with
    | error e => simp [hlen] at h
    | ok n =>
      cases hrest : measureCells L rest with
      | error e => simp [hlen, hrest] at h
      | ok ms =>
        simp only [hlen, hrest, Except.ok.injEq] at h
        subst h
        simp [ih ms hrest]

theorem rows_loop_eq (L : Locale) :
    ∀ (rows : List vshTableRow) (mw : List Nat) (wpre wmid : List (List Nat)),
      (∀ row ∈ rows, row.ncells = mw.length) →
      (∀ w ∈ wmid, w.length = mw.length) →
      wmid.length = rows.length →
      vshTableGetColumnsWidths.rows L wpre.length rows mw (wpre ++ wmid) =
        match measureRows L rows with
        | Except.error e => Except.error e
        | Except.ok nss => Except.ok (nss.foldl (List.zipWith max) mw, wpre ++ nss) := by
  intro rows
  induction rows with
  | nil =>
    intro mw wpre wmid _ _ hlen
    have h1 : wmid = [] := List.length_eq_zero.mp hlen
    subst h1
    simp [vshTableGetColumnsWidths.rows, measureRows]
  | cons row rest ih =>
    intro mw wpre wmid hrows hw hlen
    cases wmid with
    | nil => simp at hlen
    | cons w wmid =>
      simp only [List.length_cons, Nat.add_right_cancel_iff] at hlen
      have hrow : row.cells.length = mw.length := hrows row (List.mem_cons_self _ _)
      have hwl : w.length = mw.length := hw w (List.mem_cons_self _ _)
      have hcells := cells_loop_eq L row.cells [] mw [] w hrow.symm (by rw [hwl, hrow]) rfl
      simp only [List.length_nil, List.nil_append] at hcells
      unfold vshTableGetColumnsWidths.rows measureRows
      rw [load_append_length]
      simp only []
      rw [hcells]
      cases hm : measureCells L row.cells with
      | error e => rfl
      | ok ns =>
        simp only []
        rw [store_append_length]
        simp only []
        have hns : ns.length = mw.length := by
          rw [measureCells_length L _ _ hm, hrow]
        have := ih (List.zipWith max mw ns) (wpre ++ [ns]) wmid
          (by
            intro r hr
            rw [hrows r (List.mem_cons_of_mem _ hr)]
            simp [hns])
          (by
            intro v hv
            rw [hw v (List.mem_cons_of_mem _ hv)]
            simp [hns])
          hlen
        simp only [List.length_append, List.length_singleton, List.append_assoc,
          List.singleton_append] at this
        rw [this]
        cases measureRows L rest with
        | error e => rfl
        | ok nss => simp

theorem getColumnsWidths_eq (L : Locale) (row0 : vshTableRow) (rest : List vshTableRow)
    (hwf : ∀ row ∈ rest, row.ncells = row0.ncells) (header : Bool) :
    vshTableGetColumnsWidths L { rows := row0 :: rest } (List.replicate row0.ncells 0)
        (List.replicate (rest.length + 1) (List.replicate row0.ncells 0)) header =
      match measureRows L (if header then row0 :: rest else rest) with
      | Except.error e => Except.error e
      | Except.ok nss =>
        Except.ok (nss.foldl (List.zipWith max) (List.replicate row0.ncells 0),
          (if header then [] else [List.replicate row0.ncells 0]) ++ nss) := by
  cases header with
  | true =>
    have h := rows_loop_eq L (row0 :: rest) (List.replicate row0.ncells 0) []
      (List.replicate (rest.length + 1) (List.replicate row0.ncells 0))
      (by
        intro r hr
        rcases List.mem_cons.mp hr with h | h
        · simp [h]
        · simp [hwf r h])
      (by
        intro w hw
        rw [List.eq_of_mem_replicate hw, List.length_replicate])
      (by simp)
    simpa [vshTableGetColumnsWidths] using h
  | false =>
    have h := rows_loop_eq L rest (List.replicate row0.ncells 0)
      [List.replicate row0.ncells 0]
      (List.replicate rest.length (List.replicate row0.ncells 0))
      (by
        intro r hr
        simp [hwf r hr])
      (by
        intro w hw
        rw [List.eq_of_mem_replicate hw, List.length_replicate])
      (by simp)
    simpa [vshTableGetColumnsWidths, List.replicate_succ] using h

theorem zipWith_max_ge_left :
    ∀ a b : List Nat, a.length = b.length →
      List.Forall₂ (fun x y => x ≤ y) a (List.zipWith max a b) := by
  intro a
  induction a with
  | nil => intro b _; simp
  | cons x a ih =>
    intro b h
    cases b with
    | nil => simp at h
    | cons y b =>
      simp only [List.length_cons, Nat.add_right_cancel_iff] at h
      simp only [List.zipWith_cons_cons]
      exact List.Forall₂.cons (Nat.le_max_left x y) (ih b h)

theorem zipWith_max_ge_right :
    ∀ a b : List Nat, a.length = b.length →
      List.Forall₂ (fun x y => x ≤ y) b (List.zipWith max a b) := by
  intro a
  induction a with
  | nil =>
    intro b h
    have : b = [] := List.length_eq_zero.mp h.symm
    subst this
    simp
  | cons x a ih =>
    intro b h
    cases b with
    | nil => simp at h
    | cons y b =>
      simp only [List.length_cons, Nat.add_right_cancel_iff] at h
      simp only [List.zipWith_cons_cons]
      exact List.Forall₂.cons (Nat.le_max_right x y) (ih b h)

theorem forall₂_le_trans :
    ∀ a b c : List Nat, List.Forall₂ (fun x y => x ≤ y) a b →
      List.Forall₂ (fun x y => x ≤ y) b c → List.Forall₂ (fun x y => x ≤ y) a c := by
  intro a b c hab
  induction hab generalizing c with
  | nil => intro h; cases h; exact List.Forall₂.nil
  | cons hxy _ ih =>
    intro h
    cases h with
    | cons hyz hrest => exact List.Forall₂.cons (Nat.le_trans hxy hyz) (ih _ hrest)

theorem forall₂_le_refl : ∀ a : List Nat, List.Forall₂ (fun x y => x ≤ y) a a := by
  intro a
  induction a with
  | nil => exact List.Forall₂.nil
  | cons x a ih => exact List.Forall₂.cons (Nat.le_refl x) ih

theorem foldl_max_ge (nss : List (List Nat)) :
    ∀ mw : List Nat, (∀ ns ∈ nss, ns.length = mw.length) →
      (nss.foldl (List.zipWith max) mw).length = mw.length ∧
      List.Forall₂ (fun x y => x ≤ y) mw (nss.foldl (List.zipWith max) mw) ∧
      ∀ ns ∈ nss, List.Forall₂ (fun x y => x ≤ y) ns (nss.foldl (List.zipWith max) mw) := by
  induction nss with
  | nil => intro mw _; simp [forall₂_le_refl]
  | cons ns nss ih =>
    intro mw h
    have hns : ns.length = mw.length := h ns (List.mem_cons_self _ _)
    have hz : (List.zipWith max mw ns).length = mw.length := by simp [hns]
    obtain ⟨h1, h2, h3⟩ := ih (List.zipWith max mw ns) (by
      intro ms hms
      rw [h ms (List.mem_cons_of_mem _ hms), hz])
    simp only [List.foldl_cons]
    refine ⟨by rw [h1, hz], ?_, ?_⟩
    · exact forall₂_le_trans _ _ _ (zipWith_max_ge_left mw ns hns.symm) h2
    · intro ms hms
      rcases List.mem_cons.mp hms with e | e
      · subst e
        exact forall₂_le_trans _ _ _ (zipWith_max_ge_right mw ms hns.symm) h2
      · exact h3 ms e

theorem emit_false (o : Output) (cb : vshPrintCB) (s : String) :
    o.emit false cb s = ⟨o.stdout, ⟨o.buf.content ++ s⟩⟩ := by
  simp [Output.emit, virBufferAddStr]

theorem emitN_false (cb : vshPrintCB) (s : String) (c : Char) (hs : s.data = [c]) :
    ∀ (n : Nat) (o : Output),
      Output.emitN false cb s n o = ⟨o.stdout, ⟨o.buf.content ++ chars c n⟩⟩ := by
  intro n
  induction n with
  | zero =>
    intro o
    simp [Output.emitN, chars]
  | succ n ih =>
    intro o
    simp only [Output.emitN, ih, emit_false]
    congr 2
    apply String.ext
    simp [chars, hs, List.replicate_succ]

theorem padding_eq (m w : Nat) (hle : w ≤ m) (hm : m + 3 < SIZE_MOD) :
    vshTableRowPrint.padding m w = m - w + 2 := by
  unfold vshTableRowPrint.padding
  unfold SIZE_MOD at *
  omega

theorem rowPrint_cells_eq (cb : vshPrintCB) :
    ∀ (cells : List String) (mpre mmid wpre wmid : List Nat) (o : Output),
      wpre.length = mpre.length →
      List.Forall₂ (fun x y => x ≤ y) wmid mmid →
      (∀ m ∈ mmid, m + 3 < SIZE_MOD) →
      wmid.length = cells.length →
      vshTableRowPrint.cells (mpre ++ mmid) (wpre ++ wmid) cb false mpre.length cells o =
        Except.ok ⟨o.stdout, ⟨o.buf.content ++ rowFields mmid wmid cells⟩⟩ := by
  intro cells
  induction cells with
  | nil =>
    intro mpre mmid wpre wmid o _ hle _ hlen
    have h1 : wmid = [] := List.length_eq_zero.mp hlen
    subst h1
    cases hle
    simp [vshTableRowPrint.cells, rowFields]
  | cons cell rest ih =>
    intro mpre mmid wpre wmid o hpre hle hb hlen
    cases hle with
    | nil => simp at hlen
    | @cons w m wmid mmid hwm hrest =>
      simp only [List.length_cons, Nat.add_right_cancel_iff] at hlen
      unfold vshTableRowPrint.cells
      simp only []
      rw [load_append_length, ← hpre, load_append_length]
      simp only []
      have hm : m + 3 < SIZE_MOD := hb m (List.mem_cons_self _ _)
      rw [padding_eq m w hwm hm, emit_false, emitN_false _ " " ' ' rfl]
      have := ih (mpre ++ [m]) mmid (wpre ++ [w]) wmid
        ⟨o.stdout, ⟨o.buf.content ++ (" " ++ cell) ++ chars ' ' (m - w + 2)⟩⟩
        (by simp [hpre]) hrest (fun x hx => hb x (List.mem_cons_of_mem _ hx)) hlen
      simp only [List.length_append, List.length_singleton, List.append_assoc,
        List.singleton_append] at this
      rw [hpre, this]
      simp [rowFields, String.append_assoc]

theorem forall₂_le_length (a b : List Nat)
    (h : List.Forall₂ (fun x y => x ≤ y) a b) : a.length = b.length :=
  List.Forall₂.length_eq h

theorem rowPrint_eq (cb : vshPrintCB) (row : vshTableRow) (mw w : List Nat) (o : Output)
    (hle : List.Forall₂ (fun x y => x ≤ y) w mw)
    (hb : ∀ m ∈ mw, m + 3 < SIZE_MOD) (hlen : w.length = row.ncells) :
    vshTableRowPrint row mw w cb o false =
      Except.ok ⟨o.stdout, ⟨o.buf.content ++ rowLine mw w row⟩⟩ := by
  have h := rowPrint_cells_eq cb row.cells [] mw [] w o rfl hle hb hlen
  simp only [List.nil_append, List.length_nil] at h
  unfold vshTableRowPrint
  rw [h]
  simp [emit_false, rowLine, String.append_assoc]

theorem chars_add (c : Char) (a b : Nat) : chars c (a + b) = chars c a ++ chars c b := by
  apply String.ext
  simp only [chars, String.data_append, List.replicate_add]

theorem divider_eq :
    ∀ (mid pre : List Nat) (o : Output), (∀ m ∈ mid, m + 3 < SIZE_MOD) →
      vshTablePrint.divider (pre ++ mid) false pre.length mid.length o =
        Except.ok ⟨o.stdout,
          ⟨o.buf.content ++ chars '-' (mid.map (fun m => m + 3)).sum⟩⟩ := by
  intro mid
  induction mid with
  | nil =>
    intro pre o _
    simp [vshTablePrint.divider, chars]
  | cons m mid ih =>
    intro pre o hb
    have hm : m + 3 < SIZE_MOD := hb m (List.mem_cons_self _ _)
    have hmod : (m % SIZE_MOD + 3) % SIZE_MOD = m + 3 := by
      unfold SIZE_MOD at *
      omega
    simp only [List.length_cons, vshTablePrint.divider]
    rw [load_append_length]
    simp only []
    rw [hmod, emitN_false _ "-" '-' rfl]
    have := ih (pre ++ [m]) ⟨o.stdout, ⟨o.buf.content ++ chars '-' (m + 3)⟩⟩
      (fun x hx => hb x (List.mem_cons_of_mem _ hx))
    simp only [List.length_append, List.length_singleton, List.append_assoc,
      List.singleton_append] at this
    rw [this]
    simp [chars_add, String.append_assoc]

theorem content_eq (mw : List Nat) (hb : ∀ m ∈ mw, m + 3 < SIZE_MOD) :
    ∀ (rows : List vshTableRow) (wpre wmid : List (List Nat)) (o : Output),
      wmid.length = rows.length →
      (∀ w ∈ wmid, List.Forall₂ (fun x y => x ≤ y) w mw) →
      (∀ row ∈ rows, row.ncells = mw.length) →
      vshTablePrint.content mw (wpre ++ wmid) false wpre.length rows o =
        Except.ok ⟨o.stdout, ⟨o.buf.content ++ bodyLines mw rows wmid⟩⟩ := by
  intro rows
  induction rows with
  | nil =>
    intro wpre wmid o hlen _ _
    have h1 : wmid = [] := List.length_eq_zero.mp hlen
    subst h1
    simp [vshTablePrint.content, bodyLines]
  | cons row rest ih =>
    intro wpre wmid o hlen hle hrows
    cases wmid with
    | nil => simp at hlen
    | cons w wmid =>
      simp only [List.length_cons, Nat.add_right_cancel_iff] at hlen
      have hw := hle w (List.mem_cons_self _ _)
      have hwl : w.length = row.ncells := by
        rw [forall₂_le_length _ _ hw, hrows row (List.mem_cons_self _ _)]
      unfold vshTablePrint.content
      rw [load_append_length]
      simp only []
      rw [rowPrint_eq _ row mw w o hw hb hwl]
      simp only []
      have := ih (wpre ++ [w]) wmid ⟨o.stdout, ⟨o.buf.content ++ rowLine mw w row⟩⟩ hlen
        (fun v hv => hle v (List.mem_cons_of_mem _ hv))
        (fun r hr => hrows r (List.mem_cons_of_mem _ hr))
      simp only [List.length_append, List.length_singleton, List.append_assoc,
        List.singleton_append] at this
      rw [this]
      simp [bodyLines, String.append_assoc]

theorem len_bound (L : Locale) (cell : String) (n : Nat)
    (hc : strlen cell + 3 < SIZE_MOD)
    (h : vshTableGetColumnsWidths.len L cell = Except.ok n) : n + 3 < SIZE_MOD := by
  unfold vshTableGetColumnsWidths.len at h
  cases hm : L.mbstowcs cell with
  | none =>
    simp only [hm, Except.ok.injEq] at h
    omega
  | some wstr =>
    simp only [hm] at h
    by_cases hneg : L.wcswidth wstr < 0
    · simp [hneg] at h
    · simp only [hneg, if_false, Except.ok.injEq] at h
      have h1 : L.wcswidth wstr % 2 ^ 32 < 2 ^ 32 := Int.emod_lt_of_pos _ (by norm_num)
      have h2 : 0 ≤ L.wcswidth wstr % 2 ^ 32 := Int.emod_nonneg _ (by norm_num)
      unfold SIZE_MOD
      omega

theorem measureCells_bound (L : Locale) :
    ∀ (cells : List String) (ns : List Nat),
      (∀ cell ∈ cells, strlen cell + 3 < SIZE_MOD) →
      measureCells L cells = Except.ok ns → ∀ n ∈ ns, n + 3 < SIZE_MOD := by
  intro cells
  induction cells with
  | nil =>
    intro ns _ h
    simp only [measureCells, Except.ok.injEq] at h
    subst h
    simp
  | cons cell rest ih =>
    intro ns hc h
    unfold measureCells at h
    cases hlen : vshTableGetColumnsWidths.len L cell with
    | error e => simp [hlen] at h
    | ok n =>
      cases hrest : measureCells L rest with
      | error e => simp [hlen, hrest] at h
      | ok ms =>
        simp only [hlen, hrest, Except.ok.injEq] at h
        subst h
        intro x hx
        rcases List.mem_cons.mp hx with e | e
        · subst e
          exact len_bound L cell x (hc cell (List.mem_cons_self _ _)) hlen
        · exact ih ms (fun c hcm => hc c (List.mem_cons_of_mem _ hcm)) hrest x e

theorem measureRows_forall₂ (L : Locale) :
    ∀ (rows : List vshTableRow) (nss : List (List Nat)),
      measureRows L rows = Except.ok nss →
      List.Forall₂ (fun row ns => measureCells L row.cells = Except.ok ns) rows nss := by
  intro rows
  induction rows with
  | nil =>
    intro nss h
    simp only [measureRows, Except.ok.injEq] at h
    subst h
    exact List.Forall₂.nil
  | cons row rest ih =>
    intro nss h
    unfold measureRows at h
    cases hrow : measureCells L row.cells with
    | error e => simp [hrow] at h
    | ok ns =>
      cases hrest : measureRows L rest with
      | error e => simp [hrow, hrest] at h
      | ok mss =>
        simp only [hrow, hrest, Except.ok.injEq] at h
        subst h
        exact List.Forall₂.cons hrow (ih mss hrest)

theorem measured_shape (L : Locale) (n : Nat) :
    ∀ (rows : List vshTableRow) (nss : List (List Nat)),
      (∀ row ∈ rows, row.ncells = n) →
      (∀ row ∈ rows, ∀ cell ∈ row.cells, strlen cell + 3 < SIZE_MOD) →
      List.Forall₂ (fun row ns => measureCells L row.cells = Except.ok ns) rows nss →
      nss.length = rows.length ∧ (∀ ns ∈ nss, ns.length = n) ∧
        ∀ ns ∈ nss, ∀ x ∈ ns, x + 3 < SIZE_MOD := by
  intro rows nss hn hc h
  induction h with
  | nil => simp
  | @cons row ns rows nss hrow _ ih =>
    obtain ⟨h1, h2, h3⟩ := ih (fun r hr => hn r (List.mem_cons_of_mem _ hr))
      (fun r hr => hc r (List.mem_cons_of_mem _ hr))
    refine ⟨by simp [h1], ?_, ?_⟩
    · intro ms hms
      rcases List.mem_cons.mp hms with e | e
      · subst e
        rw [measureCells_length L _ _ hrow]
        exact hn row (List.mem_cons_self _ _)
      · exact h2 ms e
    · intro ms hms
      rcases List.mem_cons.mp hms with e | e
      · subst e
        exact measureCells_bound L _ _ (hc row (List.mem_cons_self _ _)) hrow
      · exact h3 ms e

theorem zipWith_max_mem :
    ∀ (a b : List Nat) (x : Nat), x ∈ List.zipWith max a b → x ∈ a ∨ x ∈ b := by
  intro a
  induction a with
  | nil => intro b x h; simp at h
  | cons y a ih =>
    intro b x h
    cases b with
    | nil => simp at h
    | cons z b =>
      simp only [List.zipWith_cons_cons, List.mem_cons] at h
      rcases h with e | e
      · rcases Nat.le_total y z with hyz | hyz
        · right; rw [e, Nat.max_eq_right hyz]; exact List.mem_cons_self _ _
        · left; rw [e, Nat.max_eq_left hyz]; exact List.mem_cons_self _ _
      · rcases ih b x e with h1 | h1
        · left; exact List.mem_cons_of_mem _ h1
        · right; exact List.mem_cons_of_mem _ h1

theorem foldl_max_mem (nss : List (List Nat)) :
    ∀ (mw : List Nat) (x : Nat), x ∈ nss.foldl (List.zipWith max) mw →
      x ∈ mw ∨ ∃ ns ∈ nss, x ∈ ns := by
  induction nss with
  | nil => intro mw x h; left; simpa using h
  | cons ns nss ih =>
    intro mw x h
    simp only [List.foldl_cons] at h
    rcases ih _ x h with h1 | ⟨ms, hms, hx⟩
    · rcases zipWith_max_mem mw ns x h1 with h2 | h2
      · left; exact h2
      · right; exact ⟨ns, List.mem_cons_self _ _, h2⟩
    · right; exact ⟨ms, List.mem_cons_of_mem _ hms, hx⟩

theorem maxwidths_facts (n : Nat) (nss : List (List Nat))
    (hl : ∀ ns ∈ nss, ns.length = n) (hb : ∀ ns ∈ nss, ∀ x ∈ ns, x + 3 < SIZE_MOD) :
    (nss.foldl (List.zipWith max) (List.replicate n 0)).length = n ∧
      (∀ ns ∈ nss, List.Forall₂ (fun x y => x ≤ y) ns
        (nss.foldl (List.zipWith max) (List.replicate n 0))) ∧
      ∀ m ∈ nss.foldl (List.zipWith max) (List.replicate n 0), m + 3 < SIZE_MOD := by
  obtain ⟨h1, _, h3⟩ := foldl_max_ge nss (List.replicate n 0)
    (fun ns hns => by rw [hl ns hns, List.length_replicate])
  refine ⟨by rw [h1, List.length_replicate], h3, ?_⟩
  intro m hm
  rcases foldl_max_mem nss _ m hm with h | ⟨ns, hns, hx⟩
  · rw [List.eq_of_mem_replicate h]
    unfold SIZE_MOD
    norm_num
  · exact hb ns hns m hx

theorem print_header_eq (L : Locale) (row0 : vshTableRow) (rest : List vshTableRow)
    (hwf : ∀ row ∈ rest, row.ncells = row0.ncells)
    (hrep : ∀ row ∈ row0 :: rest, ∀ cell ∈ row.cells, strlen cell + 3 < SIZE_MOD)
    (ns0 : List Nat) (nss : List (List Nat))
    (hm : measureRows L (row0 :: rest) = Except.ok (ns0 :: nss)) :
    vshTablePrint L { rows := row0 :: rest } true false =
      Except.ok ⟨some
        (rowLine ((ns0 :: nss).foldl (List.zipWith max) (List.replicate row0.ncells 0)) ns0 row0 ++
          dividerLine ((ns0 :: nss).foldl (List.zipWith max) (List.replicate row0.ncells 0)) ++
          bodyLines ((ns0 :: nss).foldl (List.zipWith max) (List.replicate row0.ncells 0))
            rest nss), []⟩ := by
  have hall : ∀ row ∈ row0 :: rest, row.ncells = row0.ncells := by
    intro r hr
    rcases List.mem_cons.mp hr with e | e
    · rw [e]
    · exact hwf r e
  obtain ⟨hlen, hl, hb⟩ := measured_shape L row0.ncells _ _ hall hrep
    (measureRows_forall₂ L _ _ hm)
  obtain ⟨f1, f2, f3⟩ := maxwidths_facts row0.ncells (ns0 :: nss) hl hb
  have hg := getColumnsWidths_eq L row0 rest hwf true
  simp only [if_true, hm, List.nil_append] at hg
  generalize hmw : (ns0 :: nss).foldl (List.zipWith max) (List.replicate row0.ncells 0) = mw
    at hg f1 f2 f3 ⊢
  have hrow := rowPrint_eq vshPrintCB.vshPrintExtra row0 mw ns0
    ⟨[], ⟨""⟩⟩ (f2 ns0 (List.mem_cons_self _ _)) f3
    (hl ns0 (List.mem_cons_self _ _))
  simp only [String.empty_append] at hrow
  have hdiv := fun o => divider_eq mw [] o f3
  simp only [List.nil_append, List.length_nil, f1] at hdiv
  have hcont := fun o => content_eq mw f3 rest [ns0] nss o
    (by simpa using hlen) (fun w hw => f2 w (List.mem_cons_of_mem _ hw))
    (fun r hr => by rw [hwf r hr, f1])
  simp only [List.length_singleton, List.singleton_append] at hcont
  simp only [vshTablePrint, List.head?_cons, vshTable.nrows, List.length_cons, hg, if_true,
    vshTablePrint.head, load, List.getElem?_cons_zero, hrow, hdiv, emit_false,
    List.drop_succ_cons, List.drop_zero, hcont, virBufferContentAndReset,
    VIR_BUFFER_INITIALIZER]
  simp [dividerLine, String.append_assoc]

theorem print_body_eq (L : Locale) (row0 : vshTableRow) (rest : List vshTableRow)
    (hwf : ∀ row ∈ rest, row.ncells = row0.ncells)
    (hrep : ∀ row ∈ rest, ∀ cell ∈ row.cells, strlen cell + 3 < SIZE_MOD)
    (nss : List (List Nat))
    (hm : measureRows L rest = Except.ok nss) :
    vshTablePrint L { rows := row0 :: rest } false false =
      Except.ok ⟨some
        (bodyLines (nss.foldl (List.zipWith max) (List.replicate row0.ncells 0)) rest nss),
        []⟩ := by
  obtain ⟨hlen, hl, hb⟩ := measured_shape L row0.ncells _ _ hwf hrep
    (measureRows_forall₂ L _ _ hm)
  obtain ⟨f1, f2, f3⟩ := maxwidths_facts row0.ncells nss hl hb
  have hg := getColumnsWidths_eq L row0 rest hwf false
  simp only [Bool.false_eq_true, if_false, hm, List.singleton_append] at hg
  generalize hmw : nss.foldl (List.zipWith max) (List.replicate row0.ncells 0) = mw
    at hg f1 f2 f3 ⊢
  have hcont := fun o => content_eq mw f3 rest [List.replicate row0.ncells 0] nss o
    hlen f2 (fun r hr => by rw [hwf r hr, f1])
  simp only [List.length_singleton, List.singleton_append] at hcont
  simp only [vshTablePrint, List.head?_cons, vshTable.nrows, List.length_cons, hg,
    Bool.false_eq_true, if_false, List.drop_succ_cons, List.drop_zero, hcont,
    virBufferContentAndReset, VIR_BUFFER_INITIALIZER]
  simp

theorem forall₂_getElem? {α β : Type} (R : α → β → Prop) :
    ∀ (as : List α) (bs : List β), List.Forall₂ R as bs →
      ∀ (i : Nat) (a : α), as[i]? = some a → ∃ b, bs[i]? = some b ∧ R a b := by
  intro as bs h
  induction h with
  | nil => intro i a hi; simp at hi
  | @cons x y as bs hxy _ ih =>
    intro i a hi
    cases i with
    | zero =>
      simp only [List.getElem?_cons_zero, Option.some.injEq] at hi
      subst hi
      exact ⟨y, by simp, hxy⟩
    | succ i =>
      simp only [List.getElem?_cons_succ] at hi
      obtain ⟨b, hb, hr⟩ := ih i a hi
      exact ⟨b, by simpa using hb, hr⟩

theorem wellFormed_rows (table : vshTable) (hwf : table.wellFormed) :
    ∃ row0 rest, table = { rows := row0 :: rest } ∧
      ∀ row ∈ rest, row.ncells = row0.ncells := by
  obtain ⟨rows⟩ := table
  cases rows with
  | nil => simp [vshTable.wellFormed] at hwf
  | cons row0 rest => exact ⟨row0, rest, rfl, by simpa [vshTable.wellFormed] using hwf⟩

theorem widths_measured (L : Locale) (row0 : vshTableRow) (rest : List vshTableRow)
    (hwf : ∀ row ∈ rest, row.ncells = row0.ncells) (header : Bool)
    (mw : List Nat) (ws : List (List Nat))
    (hw : vshTableGetColumnsWidths L { rows := row0 :: rest } (List.replicate row0.ncells 0)
      (List.replicate (rest.length + 1) (List.replicate row0.ncells 0)) header =
        Except.ok (mw, ws)) :
    ∃ nss, measureRows L (if header then row0 :: rest else rest) = Except.ok nss ∧
      mw = nss.foldl (List.zipWith max) (List.replicate row0.ncells 0) ∧
      ws = (if header then [] else [List.replicate row0.ncells 0]) ++ nss := by
  rw [getColumnsWidths_eq L row0 rest hwf header] at hw
  cases hm : measureRows L (if header then row0 :: rest else rest) with
  | error e => simp [hm] at hw
  | ok nss =>
    simp only [hm, Except.ok.injEq, Prod.mk.injEq] at hw
    exact ⟨nss, rfl, hw.1.symm, hw.2.symm⟩

/-- What holds of the arrays after a successful `vshTableGetColumnsWidths` on a
well-formed table: every printed row has its widths, one per cell, each the
measured width of its cell, none above the maximum of its column, and the
maxima leave room for the additions of the print loops. -/
theorem printed_row_widths (L : Locale) (row0 : vshTableRow) (rest : List vshTableRow)
    (hwf : ∀ row ∈ rest, row.ncells = row0.ncells)
    (hrep : ∀ row ∈ row0 :: rest, ∀ cell ∈ row.cells, strlen cell + 3 < SIZE_MOD)
    (header : Bool) (mw : List Nat) (ws : List (List Nat))
    (hw : vshTableGetColumnsWidths L { rows := row0 :: rest } (List.replicate row0.ncells 0)
      (List.replicate (rest.length + 1) (List.replicate row0.ncells 0)) header =
        Except.ok (mw, ws)) :
    mw.length = row0.ncells ∧ (∀ m ∈ mw, m + 3 < SIZE_MOD) ∧
      ∀ (i : Nat) (row : vshTableRow), (row0 :: rest)[i]? = some row →
        (header = true ∨ 1 ≤ i) →
        ∃ wi, ws[i]? = some wi ∧ measureCells L row.cells = Except.ok wi ∧
          wi.length = row.ncells ∧ List.Forall₂ (fun x y => x ≤ y) wi mw := by
  obtain ⟨nss, hm, hmw, hws⟩ := widths_measured L row0 rest hwf header mw ws hw
  have hall : ∀ row ∈ row0 :: rest, row.ncells = row0.ncells := by
    intro r hr
    rcases List.mem_cons.mp hr with e | e
    · rw [e]
    · exact hwf r e
  have hF := measureRows_forall₂ L _ _ hm
  have hsub : ∀ r ∈ (if header then row0 :: rest else rest), r ∈ row0 :: rest := by
    intro r hr
    cases header with
    | true => simpa using hr
    | false => exact List.mem_cons_of_mem _ (by simpa using hr)
  obtain ⟨_, hl, hb⟩ := measured_shape L row0.ncells _ _
    (fun r hr => hall r (hsub r hr)) (fun r hr => hrep r (hsub r hr)) hF
  obtain ⟨f1, f2, f3⟩ := maxwidths_facts row0.ncells nss hl hb
  rw [← hmw] at f1 f2 f3
  refine ⟨f1, f3, ?_⟩
  intro i row hrow hpr
  have hfind : ∃ k : Nat, (if header then row0 :: rest else rest)[k]? = some row ∧
      ws[i]? = nss[k]? := by
    cases header with
    | true => exact ⟨i, by simpa using hrow, by simp [hws]⟩
    | false =>
      cases i with
      | zero => simp at hpr
      | succ k => exact ⟨k, by simpa using hrow, by simp [hws]⟩
  obtain ⟨k, hk, hwk⟩ := hfind
  obtain ⟨wi, hwi, hmc⟩ := forall₂_getElem? _ _ _ hF k row hk
  have hmem : wi ∈ nss := List.getElem?_mem hwi
  refine ⟨wi, by rw [hwk, hwi], hmc, ?_, f2 wi hmem⟩
  rw [measureCells_length L _ _ hmc]
  rfl

theorem print_eq (L : Locale) (row0 : vshTableRow) (rest : List vshTableRow)
    (hwf : ∀ row ∈ rest, row.ncells = row0.ncells)
    (hrep : ∀ row ∈ row0 :: rest, ∀ cell ∈ row.cells, strlen cell + 3 < SIZE_MOD)
    (header : Bool) (mw : List Nat) (ws : List (List Nat))
    (hw : vshTableGetColumnsWidths L { rows := row0 :: rest } (List.replicate row0.ncells 0)
      (List.replicate (rest.length + 1) (List.replicate row0.ncells 0)) header =
        Except.ok (mw, ws)) :
    ws.length = rest.length + 1 ∧
      vshTablePrint L { rows := row0 :: rest } header false =
        Except.ok ⟨some
          ((if header then rowLine mw (ws.headD []) row0 ++ dividerLine mw else "") ++
            bodyLines mw rest (ws.drop 1)), []⟩ := by
  obtain ⟨nss, hm, hmw, hws⟩ := widths_measured L row0 rest hwf header mw ws hw
  have hlen := List.Forall₂.length_eq (measureRows_forall₂ L _ _ hm)
  cases header with
  | true =>
    simp only [if_true, List.nil_append] at hm hws hlen ⊢
    cases nss with
    | nil => simp at hlen
    | cons ns0 nss =>
      subst hws hmw
      refine ⟨by simpa using hlen.symm, ?_⟩
      rw [print_header_eq L row0 rest hwf hrep ns0 nss hm]
      simp
  | false =>
    simp only [Bool.false_eq_true, if_false, List.singleton_append] at hm hws hlen ⊢
    subst hws hmw
    refine ⟨by simp [hlen], ?_⟩
    rw [print_body_eq L row0 rest hwf
      (fun r hr => hrep r (List.mem_cons_of_mem _ hr)) nss hm]
    simp

theorem bodyLines_split (mw : List Nat) :
    ∀ (rows : List vshTableRow) (ws : List (List Nat)) (k : Nat) (row : vshTableRow)
      (wi : List Nat), rows[k]? = some row → ws[k]? = some wi →
      ∃ before after, bodyLines mw rows ws = before ++ rowLine mw wi row ++ after := by
  intro rows
  induction rows with
  | nil => intro ws k row wi h; simp at h
  | cons r rows ih =>
    intro ws k row wi hr hw
    cases ws with
    | nil => simp at hw
    | cons w ws =>
      cases k with
      | zero =>
        simp only [List.getElem?_cons_zero, Option.some.injEq] at hr hw
        subst hr hw
        exact ⟨"", bodyLines mw rows ws, by simp [bodyLines]⟩
      | succ k =>
        simp only [List.getElem?_cons_succ] at hr hw
        obtain ⟨b, a, hba⟩ := ih ws k row wi hr hw
        exact ⟨rowLine mw w r ++ b, a, by simp [bodyLines, hba, String.append_assoc]⟩

theorem fragmentsText_append (frags : List (vshPrintCB × String)) (cb : vshPrintCB)
    (s : String) : fragmentsText (frags ++ [(cb, s)]) = fragmentsText frags ++ s := by
  simp [fragmentsText, String.join, List.foldl_append]

theorem sameText_emit (os ob : Output) (cb cb2 : vshPrintCB) (s : String)
    (h : os.sameText ob) : (os.emit true cb s).sameText (ob.emit false cb2 s) := by
  unfold Output.sameText at *
  simp [Output.emit, virBufferAddStr, fragmentsText_append, h]

theorem sameText_emitN (cb cb2 : vshPrintCB) (s : String) :
    ∀ (n : Nat) (os ob : Output), os.sameText ob →
      (Output.emitN true cb s n os).sameText (Output.emitN false cb2 s n ob) := by
  intro n
  induction n with
  | zero => intro os ob h; simpa [Output.emitN] using h
  | succ n ih =>
    intro os ob h
    simp only [Output.emitN]
    exact ih _ _ (sameText_emit os ob cb cb2 s h)

theorem sameRun_cells (mw w : List Nat) (cb : vshPrintCB) :
    ∀ (cells : List String) (i : Nat) (os ob : Output), os.sameText ob →
      sameRun (vshTableRowPrint.cells mw w cb true i cells os)
        (vshTableRowPrint.cells mw w cb false i cells ob) := by
  intro cells
  induction cells with
  | nil => intro i os ob h; simpa [vshTableRowPrint.cells, sameRun] using h
  | cons cell rest ih =>
    intro i os ob h
    unfold vshTableRowPrint.cells
    cases load mw i with
    | error e => simp [sameRun]
    | ok m =>
      cases load w i with
      | error e => simp [sameRun]
      | ok x =>
        exact ih (i + 1) _ _
          (sameText_emitN cb cb " " _ _ _ (sameText_emit os ob cb cb _ h))

theorem sameRun_rowPrint (row : vshTableRow) (mw w : List Nat) (cb : vshPrintCB)
    (os ob : Output) (h : os.sameText ob) :
    sameRun (vshTableRowPrint row mw w cb os true) (vshTableRowPrint row mw w cb ob false) := by
  have hc := sameRun_cells mw w cb row.cells 0 os ob h
  unfold vshTableRowPrint
  cases h1 : vshTableRowPrint.cells mw w cb true 0 row.cells os with
  | error e =>
    cases h2 : vshTableRowPrint.cells mw w cb false 0 row.cells ob with
    | error f => simpa [h1, h2, sameRun] using hc
    | ok b => simp [h1, h2, sameRun] at hc
  | ok a =>
    cases h2 : vshTableRowPrint.cells mw w cb false 0 row.cells ob with
    | error f => simp [h1, h2, sameRun] at hc
    | ok b =>
      simp only [h1, h2, sameRun] at hc ⊢
      exact sameText_emit a b cb cb "\n" hc

theorem sameRun_divider (mw : List Nat) :
    ∀ (n i : Nat) (os ob : Output), os.sameText ob →
      sameRun (vshTablePrint.divider mw true i n os) (vshTablePrint.divider mw false i n ob) := by
  intro n
  induction n with
  | zero => intro i os ob h; simpa [vshTablePrint.divider, sameRun] using h
  | succ n ih =>
    intro i os ob h
    unfold vshTablePrint.divider
    cases load mw i with
    | error e => simp [sameRun]
    | ok m => exact ih (i + 1) _ _ (sameText_emitN _ _ "-" _ _ _ h)

theorem sameRun_content (mw : List Nat) (ws : List (List Nat)) :
    ∀ (rows : List vshTableRow) (i : Nat) (os ob : Output), os.sameText ob →
      sameRun (vshTablePrint.content mw ws true i rows os)
        (vshTablePrint.content mw ws false i rows ob) := by
  intro rows
  induction rows with
  | nil => intro i os ob h; simpa [vshTablePrint.content, sameRun] using h
  | cons row rest ih =>
    intro i os ob h
    unfold vshTablePrint.content
    cases load ws i with
    | error e => simp [sameRun]
    | ok wi =>
      have hr := sameRun_rowPrint row mw wi vshPrintCB.vshPrint os ob h
      cases h1 : vshTableRowPrint row mw wi vshPrintCB.vshPrint os true with
      | error e =>
        cases h2 : vshTableRowPrint row mw wi vshPrintCB.vshPrint ob false with
        | error f => simpa [h1, h2, sameRun] using hr
        | ok b => simp [h1, h2, sameRun] at hr
      | ok a =>
        cases h2 : vshTableRowPrint row mw wi vshPrintCB.vshPrint ob false with
        | error f => simp [h1, h2, sameRun] at hr
        | ok b =>
          simp only [h1, h2, sameRun] at hr ⊢
          exact ih (i + 1) a b hr

theorem sameRun_head (row0 : vshTableRow) (mw : List Nat) (ws : List (List Nat))
    (os ob : Output) (h : os.sameText ob) :
    sameRun (vshTablePrint.head row0 mw ws true os) (vshTablePrint.head row0 mw ws false ob) := by
  unfold vshTablePrint.head
  cases load ws 0 with
  | error e => simp [sameRun]
  | ok w0 =>
    have hr := sameRun_rowPrint row0 mw w0 vshPrintCB.vshPrintExtra os ob h
    cases h1 : vshTableRowPrint row0 mw w0 vshPrintCB.vshPrintExtra os true with
    | error e =>
      cases h2 : vshTableRowPrint row0 mw w0 vshPrintCB.vshPrintExtra ob false with
      | error f => simpa [h1, h2, sameRun] using hr
      | ok b => simp [h1, h2, sameRun] at hr
    | ok a =>
      cases h2 : vshTableRowPrint row0 mw w0 vshPrintCB.vshPrintExtra ob false with
      | error f => simp [h1, h2, sameRun] at hr
      | ok b =>
        simp only [h1, h2, sameRun] at hr ⊢
        have hd := sameRun_divider mw row0.ncells 0 a b hr
        cases h3 : vshTablePrint.divider mw true 0 row0.ncells a with
        | error e =>
          cases h4 : vshTablePrint.divider mw false 0 row0.ncells b with
          | error f => simpa [h3, h4, sameRun] using hd
          | ok d => simp [h3, h4, sameRun] at hd
        | ok c =>
          cases h4 : vshTablePrint.divider mw false 0 row0.ncells b with
          | error f => simp [h3, h4, sameRun] at hd
          | ok d =>
            simp only [h3, h4, sameRun] at hd ⊢
            exact sameText_emit c d _ _ "\n" hd

theorem sameRun_ok (x y : Except Abort Output) (b : Output)
    (h : sameRun x y) (hy : y = Except.ok b) :
    ∃ a, x = Except.ok a ∧ a.sameText b := by
  subst hy
  cases x with
  | error e => simp [sameRun] at h
  | ok a => exact ⟨a, rfl, h⟩

theorem print_sameText (L : Locale) (table : vshTable) (header : Bool) (text : String)
    (h : vshTablePrint L table header false = Except.ok ⟨some text, []⟩) :
    ∃ frags, vshTablePrint L table header true = Except.ok ⟨none, frags⟩ ∧
      fragmentsText frags = text := by
  unfold vshTablePrint at h ⊢
  cases h0 : table.rows.head? with
  | none => simp [h0] at h
  | some row0 =>
    simp only [h0] at h ⊢
    cases hg : vshTableGetColumnsWidths L table (List.replicate row0.ncells 0)
        (List.replicate table.nrows (List.replicate row0.ncells 0)) header with
    | error e =>
      cases e with
      | negativeWidth => simp [hg] at h
      | outOfBounds => simp [hg] at h
    | ok p =>
      obtain ⟨mw, ws⟩ := p
      simp only [hg] at h ⊢
      have hinit : Output.sameText ⟨[], VIR_BUFFER_INITIALIZER⟩ ⟨[], VIR_BUFFER_INITIALIZER⟩ := by
        simp [Output.sameText, fragmentsText, VIR_BUFFER_INITIALIZER, String.join]
      have hhead : sameRun
          (if header = true then
            vshTablePrint.head row0 mw ws true ⟨[], VIR_BUFFER_INITIALIZER⟩
          else Except.ok ⟨[], VIR_BUFFER_INITIALIZER⟩)
          (if header = true then
            vshTablePrint.head row0 mw ws false ⟨[], VIR_BUFFER_INITIALIZER⟩
          else Except.ok ⟨[], VIR_BUFFER_INITIALIZER⟩) := by
        cases header with
        | true => simpa using sameRun_head row0 mw ws _ _ hinit
        | false => simpa [sameRun] using hinit
      cases h2 : (if header = true then
            vshTablePrint.head row0 mw ws false ⟨[], VIR_BUFFER_INITIALIZER⟩
          else Except.ok ⟨[], VIR_BUFFER_INITIALIZER⟩) with
      | error e => simp [h2] at h
      | ok b =>
        obtain ⟨a, h1, hab⟩ := sameRun_ok _ _ b hhead h2
        simp only [h1, h2] at h ⊢
        have hcont := sameRun_content mw ws (table.rows.drop 1) 1 a b hab
        cases h4 : vshTablePrint.content mw ws false 1 (table.rows.drop 1) b with
        | error e =>
          rw [h4] at h
          simp at h
        | ok d =>
          obtain ⟨c, h3, hcd⟩ := sameRun_ok _ _ d hcont h4
          rw [h4] at h
          rw [h3]
          simp only [Bool.false_eq_true, if_false, virBufferContentAndReset,
            Except.ok.injEq, PrintResult.mk.injEq, Option.some.injEq] at h
          refine ⟨c.stdout, by simp, ?_⟩
          rw [← h.1]
          exact hcd

theorem measured_lengths (L : Locale) (n : Nat) :
    ∀ (rows : List vshTableRow) (nss : List (List Nat)),
      (∀ row ∈ rows, row.ncells = n) →
      List.Forall₂ (fun row ns => measureCells L row.cells = Except.ok ns) rows nss →
      ∀ ns ∈ nss, ns.length = n := by
  intro rows nss hn h
  induction h with
  | nil => simp
  | @cons row ns rows nss hrow _ ih =>
    intro ms hms
    rcases List.mem_cons.mp hms with e | e
    · subst e
      rw [measureCells_length L _ _ hrow]
      exact hn row (List.mem_cons_self _ _)
    · exact ih (fun r hr => hn r (List.mem_cons_of_mem _ hr)) ms e

theorem measureCells_forall₂ (L : Locale) :
    ∀ (cells : List String) (ns : List Nat), measureCells L cells = Except.ok ns →
      List.Forall₂ (fun cell n => vshTableGetColumnsWidths.len L cell = Except.ok n)
        cells ns := by
  intro cells
  induction cells with
  | nil =>
    intro ns h
    simp only [measureCells, Except.ok.injEq] at h
    subst h
    exact List.Forall₂.nil
  | cons cell rest ih =>
    intro ns h
    unfold measureCells at h
    cases hlen : vshTableGetColumnsWidths.len L cell with
    | error e => simp [hlen] at h
    | ok n =>
      cases hrest : measureCells L rest with
      | error e => simp [hlen, hrest] at h
      | ok ms =>
        simp only [hlen, hrest, Except.ok.injEq] at h
        subst h
        exact List.Forall₂.cons hlen (ih ms hrest)

theorem zipWith_max_getElem? :
    ∀ (a b : List Nat) (j m : Nat), (List.zipWith max a b)[j]? = some m →
      a[j]? = some m ∨ b[j]? = some m := by
  intro a
  induction a with
  | nil => intro b j m h; simp at h
  | cons x a ih =>
    intro b j m h
    cases b with
    | nil => simp at h
    | cons y b =>
      cases j with
      | zero =>
        simp only [List.zipWith_cons_cons, List.getElem?_cons_zero, Option.some.injEq] at h ⊢
        rcases Nat.le_total x y with hxy | hxy
        · right; rw [← h, Nat.max_eq_right hxy]
        · left; rw [← h, Nat.max_eq_left hxy]
      | succ j =>
        simp only [List.zipWith_cons_cons, List.getElem?_cons_succ] at h ⊢
        exact ih b j m h

theorem foldl_max_attained (nss : List (List Nat)) :
    ∀ (mw : List Nat) (j m : Nat), (nss.foldl (List.zipWith max) mw)[j]? = some m →
      mw[j]? = some m ∨ ∃ ns ∈ nss, ns[j]? = some m := by
  induction nss with
  | nil => intro mw j m h; left; simpa using h
  | cons ns nss ih =>
    intro mw j m h
    simp only [List.foldl_cons] at h
    rcases ih _ j m h with h1 | ⟨ms, hms, hx⟩
    · rcases zipWith_max_getElem? mw ns j m h1 with h2 | h2
      · left; exact h2
      · right; exact ⟨ns, List.mem_cons_self _ _, h2⟩
    · right; exact ⟨ms, List.mem_cons_of_mem _ hms, hx⟩

theorem table_eq_of_head (table : vshTable) (row0 : vshTableRow)
    (hwf : table.wellFormed) (h0 : table.rows.head? = some row0) :
    ∃ rest, table = { rows := row0 :: rest } ∧
      ∀ row ∈ rest, row.ncells = row0.ncells := by
  obtain ⟨r0, rest, ht, hr⟩ := wellFormed_rows table hwf
  subst ht
  simp only [List.head?_cons, Option.some.injEq] at h0
  subst h0
  exact ⟨rest, rfl, hr⟩

/-! ## Rendering: the claims -/

/-- C1: in a render of a well-formed table, every printed row (the header when
the header is printed, and every data row) has its widths in the array filled
by `vshTableGetColumnsWidths`, none of them above the maximum of its column,
and the text that `vshTableRowPrint` emits for it is `rowLine`: for each
column in order one space, the text of the cell and
`maxwidths[col] - widths[col] + 2` spaces, and one newline after the last
column. That text is part of the string that `vshTablePrintToString`
returns. -/
theorem printed_row_text (L : Locale) (table : vshTable) (row0 : vshTableRow)
    (header : Bool) (maxwidths : List Nat) (widths : List (List Nat)) (i : Nat)
    (row : vshTableRow) (printCB : vshPrintCB) (o : Output)
    (hwf : table.wellFormed) (hrep : table.representable)
    (h0 : table.rows.head? = some row0)
    (hw : vshTableGetColumnsWidths L table (List.replicate row0.ncells 0)
      (List.replicate table.nrows (List.replicate row0.ncells 0)) header =
        Except.ok (maxwidths, widths))
    (hrow : table.rows[i]? = some row) (hprinted : header = true ∨ 1 ≤ i) :
    ∃ wi before after,
      widths[i]? = some wi ∧ measureCells L row.cells = Except.ok wi ∧
      List.Forall₂ (fun w m => w ≤ m) wi maxwidths ∧
      vshTableRowPrint row maxwidths wi printCB o false =
        Except.ok ⟨o.stdout, ⟨o.buf.content ++ rowLine maxwidths wi row⟩⟩ ∧
      vshTablePrintToString L table header =
        Except.ok ⟨some (before ++ rowLine maxwidths wi row ++ after), []⟩ := by
  obtain ⟨rest, ht, hr⟩ := table_eq_of_head table row0 hwf h0
  subst ht
  simp only [vshTable.nrows, List.length_cons] at hw
  obtain ⟨f1, f3, hrows⟩ := printed_row_widths L row0 rest hr hrep header maxwidths widths hw
  obtain ⟨wi, hwi, hmc, hlen, hle⟩ := hrows i row hrow hprinted
  obtain ⟨_, hp⟩ := print_eq L row0 rest hr hrep header maxwidths widths hw
  have hprint := rowPrint_eq printCB row maxwidths wi o hle f3 hlen
  cases i with
  | zero =>
    have hh : header = true := by
      rcases hprinted with h | h
      · exact h
      · simp at h
    subst hh
    simp only [List.getElem?_cons_zero, Option.some.injEq] at hrow
    subst hrow
    have hd : widths.headD [] = wi := by
      cases widths with
      | nil => simp at hwi
      | cons w ws => simpa using hwi
    refine ⟨wi, "", dividerLine maxwidths ++ bodyLines maxwidths rest (widths.drop 1),
      hwi, hmc, hle, hprint, ?_⟩
    rw [hd] at hp
    rw [vshTablePrintToString, hp]
    simp [String.append_assoc]
  | succ k =>
    simp only [List.getElem?_cons_succ] at hrow
    have hwk : (widths.drop 1)[k]? = some wi := by
      rw [List.getElem?_drop, Nat.add_comm]
      exact hwi
    obtain ⟨b, a, hba⟩ := bodyLines_split maxwidths rest (widths.drop 1) k row wi hrow hwk
    refine ⟨wi,
      (if header then rowLine maxwidths (widths.headD []) row0 ++ dividerLine maxwidths
        else "") ++ b, a, hwi, hmc, hle, hprint, ?_⟩
    rw [vshTablePrintToString, hp, hba]
    simp [String.append_assoc]

/-- C2: the text of a render of a well-formed table. With the header it is
the line of the header row, then the dividing line, then the lines of the data
rows in their order; without the header it is the lines of the data rows alone.
The buffered call returns this text, and the streaming call passes fragments
to the print functions that join to the same text. -/
theorem print_composition (L : Locale) (table : vshTable) (row0 : vshTableRow)
    (header : Bool) (maxwidths : List Nat) (widths : List (List Nat))
    (hwf : table.wellFormed) (hrep : table.representable)
    (h0 : table.rows.head? = some row0)
    (hw : vshTableGetColumnsWidths L table (List.replicate row0.ncells 0)
      (List.replicate table.nrows (List.replicate row0.ncells 0)) header =
        Except.ok (maxwidths, widths)) :
    widths.length = table.nrows ∧
      vshTablePrintToString L table header =
        Except.ok ⟨some
          ((if header then rowLine maxwidths (widths.headD []) row0 ++ dividerLine maxwidths
            else "") ++
            bodyLines maxwidths (table.rows.drop 1) (widths.drop 1)), []⟩ ∧
      ∃ frags, vshTablePrint L table header true = Except.ok ⟨none, frags⟩ ∧
        fragmentsText frags =
          (if header then rowLine maxwidths (widths.headD []) row0 ++ dividerLine maxwidths
            else "") ++
            bodyLines maxwidths (table.rows.drop 1) (widths.drop 1) := by
  obtain ⟨rest, ht, hr⟩ := table_eq_of_head table row0 hwf h0
  subst ht
  simp only [vshTable.nrows, List.length_cons] at hw
  obtain ⟨hlen, hp⟩ := print_eq L row0 rest hr hrep header maxwidths widths hw
  refine ⟨by simpa [vshTable.nrows] using hlen, ?_, ?_⟩
  · rw [vshTablePrintToString, hp]
    simp
  · obtain ⟨frags, hf, ht⟩ := print_sameText L _ header _ hp
    exact ⟨frags, hf, by rw [ht]; simp⟩

/-- C3: in a render with the header of a well-formed table the loop of the
dividing line writes, for every column, the maximum of the column and three
more dashes and nothing else, and the newline follows: the line is
`sum (maxwidths[col] + 3)` times the character `-`, then one newline. For a
table of one column that is `maxwidths[0] + 3` dashes. -/
theorem divider_dashes (L : Locale) (table : vshTable) (row0 : vshTableRow)
    (maxwidths : List Nat) (widths : List (List Nat)) (o : Output)
    (hwf : table.wellFormed) (hrep : table.representable)
    (h0 : table.rows.head? = some row0)
    (hw : vshTableGetColumnsWidths L table (List.replicate row0.ncells 0)
      (List.replicate table.nrows (List.replicate row0.ncells 0)) true =
        Except.ok (maxwidths, widths)) :
    vshTablePrint.divider maxwidths false 0 row0.ncells o =
        Except.ok ⟨o.stdout,
          ⟨o.buf.content ++ chars '-' (maxwidths.map (fun m => m + 3)).sum⟩⟩ ∧
      (chars '-' (maxwidths.map (fun m => m + 3)).sum).data =
        List.replicate (maxwidths.map (fun m => m + 3)).sum '-' ∧
      vshTablePrintToString L table true =
        Except.ok ⟨some
          (rowLine maxwidths (widths.headD []) row0 ++
            (chars '-' (maxwidths.map (fun m => m + 3)).sum ++ "\n") ++
            bodyLines maxwidths (table.rows.drop 1) (widths.drop 1)), []⟩ ∧
      (row0.ncells = 1 →
        ∃ m, maxwidths = [m] ∧ (maxwidths.map (fun m => m + 3)).sum = m + 3) := by
  obtain ⟨rest, ht, hr⟩ := table_eq_of_head table row0 hwf h0
  subst ht
  simp only [vshTable.nrows, List.length_cons] at hw
  obtain ⟨f1, f3, _⟩ := printed_row_widths L row0 rest hr hrep true maxwidths widths hw
  obtain ⟨_, hp⟩ := print_eq L row0 rest hr hrep true maxwidths widths hw
  have hdiv := divider_eq maxwidths [] o f3
  simp only [List.nil_append, List.length_nil, f1] at hdiv
  refine ⟨hdiv, rfl, ?_, ?_⟩
  · rw [vshTablePrintToString, hp]
    simp [dividerLine]
  · intro h1
    rw [h1] at f1
    cases maxwidths with
    | nil => simp at f1
    | cons m ms =>
      cases ms with
      | nil => exact ⟨m, rfl, by simp⟩
      | cons x xs => simp at f1

/-- C4: after a successful `vshTableGetColumnsWidths` on a well-formed table,
`maxwidths[j]` is the maximum over the measured rows of `widths[i][j]`, where
the measured rows are all rows when the header flag is set and the rows from 1
on otherwise: every measured row has in `widths[i][j]` the measured width of
its cell `j`, which is at most `maxwidths[j]`; when there is a measured row,
one of them has exactly `maxwidths[j]`; when there is none, `maxwidths[j]` is
0. -/
theorem maxwidths_maximum (L : Locale) (table : vshTable) (row0 : vshTableRow)
    (header : Bool) (maxwidths : List Nat) (widths : List (List Nat)) (j : Nat)
    (hwf : table.wellFormed) (h0 : table.rows.head? = some row0)
    (hw : vshTableGetColumnsWidths L table (List.replicate row0.ncells 0)
      (List.replicate table.nrows (List.replicate row0.ncells 0)) header =
        Except.ok (maxwidths, widths))
    (hj : j < row0.ncells) :
    ∃ m, maxwidths[j]? = some m ∧
      (∀ (i : Nat) (row : vshTableRow), (if header then 0 else 1) ≤ i →
        table.rows[i]? = some row →
        ∃ wi w cell, widths[i]? = some wi ∧ wi[j]? = some w ∧
          row.cells[j]? = some cell ∧
          vshTableGetColumnsWidths.len L cell = Except.ok w ∧ w ≤ m) ∧
      ((if header then 0 else 1) < table.nrows →
        ∃ (i : Nat) (wi : List Nat), (if header then 0 else 1) ≤ i ∧ i < table.nrows ∧
          widths[i]? = some wi ∧ wi[j]? = some m) ∧
      (table.nrows ≤ (if header then 0 else 1) → m = 0) := by
  obtain ⟨rest, ht, hr⟩ := table_eq_of_head table row0 hwf h0
  subst ht
  simp only [vshTable.nrows, List.length_cons] at hw ⊢
  obtain ⟨nss, hm, hmw, hws⟩ := widths_measured L row0 rest hr header maxwidths widths hw
  have hall : ∀ row ∈ row0 :: rest, row.ncells = row0.ncells := by
    intro r hr2
    rcases List.mem_cons.mp hr2 with e | e
    · rw [e]
    · exact hr r e
  have hF := measureRows_forall₂ L _ _ hm
  have hsub : ∀ r ∈ (if header then row0 :: rest else rest), r ∈ row0 :: rest := by
    intro r hr2
    cases header with
    | true => simpa using hr2
    | false => exact List.mem_cons_of_mem _ (by simpa using hr2)
  have hl := measured_lengths L row0.ncells _ _ (fun r hr2 => hall r (hsub r hr2)) hF
  obtain ⟨g1, _, g3⟩ := foldl_max_ge nss (List.replicate row0.ncells 0)
    (fun ns hns => by rw [hl ns hns, List.length_replicate])
  rw [← hmw, List.length_replicate] at g1
  rw [← hmw] at g3
  have hjm : j < maxwidths.length := by rw [g1]; exact hj
  obtain ⟨m, hmj⟩ : ∃ m, maxwidths[j]? = some m := ⟨_, List.getElem?_eq_getElem hjm⟩
  -- every member of the measured widths has an entry for column j, below the maximum
  have hentry : ∀ ns ∈ nss, ∃ w, ns[j]? = some w ∧ w ≤ m := by
    intro ns hns
    have hjn : j < ns.length := by rw [hl ns hns]; exact hj
    obtain ⟨b, hb, hle⟩ := forall₂_getElem? _ _ _ (g3 ns hns) j _ (List.getElem?_eq_getElem hjn)
    rw [hmj] at hb
    simp only [Option.some.injEq] at hb
    exact ⟨ns[j], List.getElem?_eq_getElem hjn, by rw [hb]; exact hle⟩
  have hlen := List.Forall₂.length_eq hF
  refine ⟨m, hmj, ?_, ?_, ?_⟩
  · intro i row hi hrow
    have hfind : ∃ k : Nat, (if header then row0 :: rest else rest)[k]? = some row ∧
        widths[i]? = nss[k]? := by
      cases header with
      | true => exact ⟨i, by simpa using hrow, by simp [hws]⟩
      | false =>
        cases i with
        | zero => simp at hi
        | succ k => exact ⟨k, by simpa using hrow, by simp [hws]⟩
    obtain ⟨k, hk, hwk⟩ := hfind
    obtain ⟨wi, hwi, hmc⟩ := forall₂_getElem? _ _ _ hF k row hk
    have hjr : j < row.cells.length := by
      have := hall row (List.getElem?_mem hrow)
      unfold vshTableRow.ncells at this
      rw [this]
      exact hj
    obtain ⟨w, hwj, hlenw⟩ := forall₂_getElem? _ _ _ (measureCells_forall₂ L _ _ hmc) j _
      (List.getElem?_eq_getElem hjr)
    obtain ⟨w2, hw2, hle⟩ := hentry wi (List.getElem?_mem hwi)
    rw [hwj] at hw2
    simp only [Option.some.injEq] at hw2
    exact ⟨wi, w, row.cells[j], by rw [hwk, hwi], hwj, List.getElem?_eq_getElem hjr, hlenw,
      by rw [hw2]; exact hle⟩
  · intro hstart
    have hne : nss ≠ [] := by
      intro hnil
      rw [hnil] at hlen
      cases header with
      | true => simp at hlen
      | false =>
        simp only [Bool.false_eq_true, if_false, List.length_nil] at hlen hstart
        omega
    have hex : ∃ ns ∈ nss, ns[j]? = some m := by
      have hmj2 := hmj
      rw [hmw] at hmj2
      rcases foldl_max_attained nss _ j _ hmj2 with h1 | h1
      · have hz : m = 0 := List.eq_of_mem_replicate (List.getElem?_mem h1)
        cases nss with
        | nil => exact absurd rfl hne
        | cons ns0 nss =>
          obtain ⟨w, hw1, hw2⟩ := hentry ns0 (List.mem_cons_self _ _)
          refine ⟨ns0, List.mem_cons_self _ _, ?_⟩
          rw [hw1]
          simp only [Option.some.injEq]
          omega
      · exact h1
    obtain ⟨ns, hns, hnsj⟩ := hex
    obtain ⟨k, hk⟩ := List.mem_iff_getElem?.mp hns
    have hklt : k < nss.length := by
      rcases List.getElem?_eq_some.mp hk with ⟨h, _⟩
      exact h
    cases header with
    | true =>
      simp only [if_true, List.length_cons] at hlen
      exact ⟨k, ns, by simp, by omega, by simpa [hws] using hk, hnsj⟩
    | false =>
      simp only [Bool.false_eq_true, if_false] at hlen
      exact ⟨k + 1, ns, by simp, by omega, by simpa [hws] using hk, hnsj⟩
  · intro hstart
    cases header with
    | true => simp at hstart
    | false =>
      simp only [Bool.false_eq_true, if_false] at hstart hlen
      have hrest : rest.length = 0 := by omega
      rw [hrest] at hlen
      have hnil : nss = [] := List.length_eq_zero.mp hlen.symm
      rw [hnil] at hmw
      simp only [List.foldl_nil] at hmw
      rw [hmw] at hmj
      exact List.eq_of_mem_replicate (List.getElem?_mem hmj)

theorem fieldWidths_eq (wi mw : List Nat)
    (hle : List.Forall₂ (fun x y => x ≤ y) wi mw) (hb : ∀ m ∈ mw, m + 3 < SIZE_MOD) :
    fieldWidths mw wi = mw.map (fun m => m + 3) := by
  unfold fieldWidths
  induction hle with
  | nil => simp
  | @cons w m wi mw hwm _ ih =>
    have hm : m + 3 < SIZE_MOD := hb m (List.mem_cons_self _ _)
    simp only [List.zipWith_cons_cons, List.map_cons, padding_eq m w hwm hm,
      ih (fun x hx => hb x (List.mem_cons_of_mem _ hx))]
    congr 1
    omega

theorem emit_true (o : Output) (cb : vshPrintCB) (s : String) :
    o.emit true cb s = ⟨o.stdout ++ [(cb, s)], o.buf⟩ := by
  simp [Output.emit]

theorem emitN_true (cb : vshPrintCB) (s : String) :
    ∀ (n : Nat) (o : Output),
      Output.emitN true cb s n o = ⟨o.stdout ++ List.replicate n (cb, s), o.buf⟩ := by
  intro n
  induction n with
  | zero => intro o; simp [Output.emitN]
  | succ n ih =>
    intro o
    simp only [Output.emitN, ih, emit_true, List.replicate_succ, List.append_assoc,
      List.singleton_append]

theorem rowPrint_cells_padded (cb : vshPrintCB) :
    ∀ (cells : List String) (mpre mmid wpre wmid : List Nat) (o : Output),
      wpre.length = mpre.length → mmid.length = cells.length →
      wmid.length = cells.length →
      vshTableRowPrint.cells (mpre ++ mmid) (wpre ++ wmid) cb false mpre.length cells o =
        Except.ok ⟨o.stdout,
          ⟨o.buf.content ++
            paddedFields cells (List.zipWith vshTableRowPrint.padding mmid wmid)⟩⟩ := by
  intro cells
  induction cells with
  | nil =>
    intro mpre mmid wpre wmid o _ _ _
    simp [vshTableRowPrint.cells, paddedFields]
  | cons cell rest ih =>
    intro mpre mmid wpre wmid o hpre hm hw
    cases mmid with
    | nil => simp at hm
    | cons m mmid =>
      cases wmid with
      | nil => simp at hw
      | cons w wmid =>
        simp only [List.length_cons, Nat.add_right_cancel_iff] at hm hw
        unfold vshTableRowPrint.cells
        simp only []
        rw [load_append_length, ← hpre, load_append_length]
        simp only []
        rw [emit_false, emitN_false _ " " ' ' rfl]
        have := ih (mpre ++ [m]) mmid (wpre ++ [w]) wmid
          ⟨o.stdout,
            ⟨o.buf.content ++ (" " ++ cell) ++ chars ' ' (vshTableRowPrint.padding m w)⟩⟩
          (by simp [hpre]) hm hw
        simp only [List.length_append, List.length_singleton, List.append_assoc,
          List.singleton_append] at this
        rw [hpre, this]
        simp [paddedFields, String.append_assoc]

theorem rowPrint_cells_fragments (cb : vshPrintCB) :
    ∀ (cells : List String) (mpre mmid wpre wmid : List Nat) (o : Output),
      wpre.length = mpre.length → mmid.length = cells.length →
      wmid.length = cells.length →
      vshTableRowPrint.cells (mpre ++ mmid) (wpre ++ wmid) cb true mpre.length cells o =
        Except.ok ⟨o.stdout ++
          paddedFragments cb cells (List.zipWith vshTableRowPrint.padding mmid wmid),
          o.buf⟩ := by
  intro cells
  induction cells with
  | nil =>
    intro mpre mmid wpre wmid o _ _ _
    simp [vshTableRowPrint.cells, paddedFragments]
  | cons cell rest ih =>
    intro mpre mmid wpre wmid o hpre hm hw
    cases mmid with
    | nil => simp at hm
    | cons m mmid =>
      cases wmid with
      | nil => simp at hw
      | cons w wmid =>
        simp only [List.length_cons, Nat.add_right_cancel_iff] at hm hw
        unfold vshTableRowPrint.cells
        simp only []
        rw [load_append_length, ← hpre, load_append_length]
        simp only []
        rw [emit_true, emitN_true]
        have := ih (mpre ++ [m]) mmid (wpre ++ [w]) wmid
          ⟨o.stdout ++ [(cb, " " ++ cell)] ++
            List.replicate (vshTableRowPrint.padding m w) (cb, " "), o.buf⟩
          (by simp [hpre]) hm hw
        simp only [List.length_append, List.length_singleton, List.append_assoc,
          List.singleton_append] at this
        rw [hpre]
        simp only [List.append_assoc, List.singleton_append]
        rw [this]
        simp [paddedFragments]

theorem rowPrint_padded (cb : vshPrintCB) (row : vshTableRow) (mw w : List Nat) (o : Output)
    (hm : mw.length = row.ncells) (hw : w.length = row.ncells) :
    vshTableRowPrint row mw w cb o false =
        Except.ok ⟨o.stdout,
          ⟨o.buf.content ++
            paddedFields row.cells (List.zipWith vshTableRowPrint.padding mw w) ++ "\n"⟩⟩ ∧
      vshTableRowPrint row mw w cb o true =
        Except.ok ⟨o.stdout ++
          paddedFragments cb row.cells (List.zipWith vshTableRowPrint.padding mw w) ++
          [(cb, "\n")], o.buf⟩ := by
  have h1 := rowPrint_cells_padded cb row.cells [] mw [] w o rfl hm hw
  have h2 := rowPrint_cells_fragments cb row.cells [] mw [] w o rfl hm hw
  simp only [List.nil_append, List.length_nil] at h1 h2
  unfold vshTableRowPrint
  rw [h1, h2]
  simp [emit_false, emit_true]

theorem rowLine_padded (row : vshTableRow) (mw w : List Nat)
    (hle : List.Forall₂ (fun x y => x ≤ y) w mw)
    (hb : ∀ m ∈ mw, m + 3 < SIZE_MOD) (hlen : w.length = row.ncells) :
    rowLine mw w row =
      paddedFields row.cells (List.zipWith vshTableRowPrint.padding mw w) ++ "\n" := by
  have h1 := rowPrint_eq vshPrintCB.vshPrint row mw w ⟨[], ⟨""⟩⟩ hle hb hlen
  have h2 := (rowPrint_padded vshPrintCB.vshPrint row mw w ⟨[], ⟨""⟩⟩
    (by rw [← List.Forall₂.length_eq hle, hlen]) hlen).1
  rw [h1] at h2
  simp only [String.empty_append, Except.ok.injEq, Output.mk.injEq, virBuffer.mk.injEq,
    true_and] at h2
  exact h2

/-- C5: columns align on the measured width. In a render of a well-formed
table, what `vshTableRowPrint` writes for a printed row is, for each cell, one
space, the text of the cell and `maxwidths[j] - widths[i][j] + 2` spaces (in a
streaming render that many fragments of one space), then a newline, and this
line is part of the string that `vshTablePrintToString` returns. For every
column the leading space, the measured width of the cell and the number of
padding spaces add up to `maxwidths[j] + 3`. So the fields of every printed row
have the widths `maxwidths[col] + 3`, whatever the byte lengths of the cells:
every printed line is as wide as the dividing line, whose loop writes that
many dashes, and column `j` starts at the same offset, the sum of the first `j`
of these widths, in every printed row. -/
theorem columns_align (L : Locale) (table : vshTable) (row0 : vshTableRow)
    (header : Bool) (maxwidths : List Nat) (widths : List (List Nat)) (i : Nat)
    (row : vshTableRow) (printCB : vshPrintCB) (o : Output)
    (hwf : table.wellFormed) (hrep : table.representable)
    (h0 : table.rows.head? = some row0)
    (hw : vshTableGetColumnsWidths L table (List.replicate row0.ncells 0)
      (List.replicate table.nrows (List.replicate row0.ncells 0)) header =
        Except.ok (maxwidths, widths))
    (hrow : table.rows[i]? = some row) (hprinted : header = true ∨ 1 ≤ i) :
    ∃ wi, widths[i]? = some wi ∧ measureCells L row.cells = Except.ok wi ∧
      wi.length = maxwidths.length ∧
      (List.zipWith vshTableRowPrint.padding maxwidths wi).length = row.ncells ∧
      vshTableRowPrint row maxwidths wi printCB o false =
        Except.ok ⟨o.stdout,
          ⟨o.buf.content ++
            paddedFields row.cells (List.zipWith vshTableRowPrint.padding maxwidths wi) ++
            "\n"⟩⟩ ∧
      vshTableRowPrint row maxwidths wi printCB o true =
        Except.ok ⟨o.stdout ++
          paddedFragments printCB row.cells
            (List.zipWith vshTableRowPrint.padding maxwidths wi) ++
          [(printCB, "\n")], o.buf⟩ ∧
      (∃ before after, vshTablePrintToString L table header =
        Except.ok ⟨some (before ++
          (paddedFields row.cells (List.zipWith vshTableRowPrint.padding maxwidths wi) ++
            "\n") ++ after), []⟩) ∧
      vshTablePrint.divider maxwidths false 0 row0.ncells o =
        Except.ok ⟨o.stdout,
          ⟨o.buf.content ++ chars '-' (fieldWidths maxwidths wi).sum⟩⟩ ∧
      (∀ (j m w : Nat), maxwidths[j]? = some m → wi[j]? = some w →
        1 + w + vshTableRowPrint.padding m w = m + 3) ∧
      fieldWidths maxwidths wi = maxwidths.map (fun m => m + 3) ∧
      (fieldWidths maxwidths wi).sum = (maxwidths.map (fun m => m + 3)).sum ∧
      ∀ j : Nat, ((fieldWidths maxwidths wi).take j).sum =
        ((maxwidths.map (fun m => m + 3)).take j).sum := by
  obtain ⟨rest, ht, hr⟩ := table_eq_of_head table row0 hwf h0
  subst ht
  simp only [vshTable.nrows, List.length_cons] at hw
  obtain ⟨f1, f3, hrows⟩ := printed_row_widths L row0 rest hr hrep header maxwidths widths hw
  obtain ⟨wi, hwi, hmc, hlen, hle⟩ := hrows i row hrow hprinted
  have hf := fieldWidths_eq wi maxwidths hle f3
  have hmlen : maxwidths.length = row.ncells := by
    rw [← List.Forall₂.length_eq hle, hlen]
  obtain ⟨hbuf, hstream⟩ := rowPrint_padded printCB row maxwidths wi o hmlen hlen
  have hline := rowLine_padded row maxwidths wi hle f3 hlen
  have hdiv := divider_eq maxwidths [] o f3
  simp only [List.nil_append, List.length_nil, f1] at hdiv
  obtain ⟨_, hp⟩ := print_eq L row0 rest hr hrep header maxwidths widths hw
  have hpart : ∃ before after, vshTablePrintToString L { rows := row0 :: rest } header =
      Except.ok ⟨some (before ++ rowLine maxwidths wi row ++ after), []⟩ := by
    cases i with
    | zero =>
      have hh : header = true := by
        rcases hprinted with h | h
        · exact h
        · simp at h
      subst hh
      simp only [List.getElem?_cons_zero, Option.some.injEq] at hrow
      subst hrow
      have hd : widths.headD [] = wi := by
        cases widths with
        | nil => simp at hwi
        | cons w ws => simpa using hwi
      rw [hd] at hp
      refine ⟨"", dividerLine maxwidths ++ bodyLines maxwidths rest (widths.drop 1), ?_⟩
      rw [vshTablePrintToString, hp]
      simp [String.append_assoc]
    | succ k =>
      simp only [List.getElem?_cons_succ] at hrow
      have hwk : (widths.drop 1)[k]? = some wi := by
        rw [List.getElem?_drop, Nat.add_comm]
        exact hwi
      obtain ⟨b, a, hba⟩ := bodyLines_split maxwidths rest (widths.drop 1) k row wi hrow hwk
      refine ⟨(if header then rowLine maxwidths (widths.headD []) row0 ++
        dividerLine maxwidths else "") ++ b, a, ?_⟩
      rw [vshTablePrintToString, hp, hba]
      simp [String.append_assoc]
  rw [hline] at hpart
  refine ⟨wi, hwi, hmc, List.Forall₂.length_eq hle, ?_, hbuf, hstream, hpart, ?_, ?_, hf,
    by rw [hf], fun j => by rw [hf]⟩
  · simp [hmlen, hlen]
  · rw [hf]
    exact hdiv
  · intro j m w hm hwj
    obtain ⟨b, hb, hwb⟩ := forall₂_getElem? _ _ _ hle j w hwj
    rw [hm] at hb
    simp only [Option.some.injEq] at hb
    subst hb
    rw [padding_eq m w hwb (f3 m (List.getElem?_mem hm))]
    omega

/-! ## Construction: the claims -/

/-- C6: appending a non-empty row whose number of cells differs from the
number of cells of the header fails (the return value is -1) with the report
of the wrong number of cells, and the table is the same as before. -/
theorem append_cell_count_mismatch (table : vshTable) (header : vshTableRow)
    (args : List String) (h0 : table.rows.head? = some header)
    (hne : args ≠ []) (hlen : args.length ≠ header.ncells) :
    vshTableRowAppend table args = Except.ok ⟨-1, table, some errCellCount⟩ := by
  cases args with
  | nil => exact absurd rfl hne
  | cons arg ap =>
    have hn : ¬ header.ncells = ap.length + 1 := by
      intro h
      exact hlen (by simp [h])
    simp [vshTableRowAppend, h0, vshTableRowNew_cons, vshTableRow.ncells] at hn ⊢
    intro h
    exact absurd h hn

/-- C7: appending an empty row fails (the return value is -1) with the report
of the empty row, which is not the report of the wrong number of cells; the
table is the same as before, and appending a row with as many cells as the
header to the table that the failed call left behind succeeds. -/
theorem append_empty_row (table : vshTable) (header : vshTableRow) (args : List String)
    (h0 : table.rows.head? = some header) (hcols : 0 < header.ncells)
    (hlen : args.length = header.ncells) :
    vshTableRowAppend table [] = Except.ok ⟨-1, table, some errRowEmpty⟩ ∧
      errRowEmpty ≠ errCellCount ∧
      ∃ r, vshTableRowAppend table [] = Except.ok r ∧
        vshTableRowAppend r.table args =
          Except.ok ⟨0, { rows := table.rows ++ [⟨args⟩] }, none⟩ := by
  have h1 : vshTableRowAppend table [] = Except.ok ⟨-1, table, some errRowEmpty⟩ := by
    simp [vshTableRowAppend, h0, vshTableRowNew]
  refine ⟨h1, by decide, ⟨-1, table, some errRowEmpty⟩, h1, ?_⟩
  cases args with
  | nil =>
    simp only [List.length_nil] at hlen
    omega
  | cons arg ap =>
    simp only [vshTableRowAppend, h0, vshTableRowNew_cons, vshTableRow.ncells]
    simp only [vshTableRow.ncells] at hlen
    simp [hlen]

/-- C8: appending a row with as many cells as the header succeeds (the return
value is 0 and nothing is reported); afterwards the table has one row more,
the new last row holds the given texts in the given order, and every row that
was there before is still at its place. -/
theorem append_row_success (table : vshTable) (header : vshTableRow) (args : List String)
    (h0 : table.rows.head? = some header) (hcols : 0 < header.ncells)
    (hlen : args.length = header.ncells) :
    ∃ r, vshTableRowAppend table args = Except.ok r ∧ r.ret = 0 ∧ r.reported = none ∧
      r.table.rows = table.rows ++ [⟨args⟩] ∧
      r.table.nrows = table.nrows + 1 ∧
      r.table.rows[table.nrows]? = some ⟨args⟩ ∧
      ∀ (i : Nat) (row : vshTableRow), table.rows[i]? = some row →
        r.table.rows[i]? = some row := by
  cases args with
  | nil =>
    simp only [List.length_nil] at hlen
    omega
  | cons arg ap =>
    refine ⟨⟨0, { rows := table.rows ++ [⟨arg :: ap⟩] }, none⟩, ?_, rfl, rfl, rfl, ?_, ?_, ?_⟩
    · simp only [vshTableRowAppend, h0, vshTableRowNew_cons, vshTableRow.ncells]
      simp only [vshTableRow.ncells] at hlen
      simp [hlen]
    · simp [vshTable.nrows]
    · simp [vshTable.nrows]
    · intro i row hi
      have hlt : i < table.rows.length := by
        rcases List.getElem?_eq_some.mp hi with ⟨h, _⟩
        exact h
      simp only []
      rw [List.getElem?_append_left hlt]
      exact hi

/-- C9: `vshTableNew` returns no table exactly when the list of column names
is empty, that is when its first argument is NULL. -/
theorem new_fails_iff_no_columns (args : List String) :
    (∃ e, vshTableNew args = Except.error e) ↔ args = [] := by
  cases args with
  | nil => simp [vshTableNew, vshTableRowNew]
  | cons arg ap => simp [vshTableNew, vshTableRowNew_cons]

/-- C10: for a non-empty list of column names `vshTableNew` returns a table
with exactly one row, the header, which has as many cells as there are names,
and its cells are the names in the given order. -/
theorem new_table_header (args : List String) (hne : args ≠ []) :
    ∃ table header, vshTableNew args = Except.ok table ∧ table.nrows = 1 ∧
      table.rows = [header] ∧ header.ncells = args.length ∧ header.cells = args := by
  cases args with
  | nil => exact absurd rfl hne
  | cons arg ap =>
    exact ⟨{ rows := [⟨arg :: ap⟩] }, ⟨arg :: ap⟩,
      by simp [vshTableNew, vshTableRowNew_cons], rfl, rfl, rfl, rfl⟩

/-! ## The claims at the tables of the test suite -/

theorem printed_row_text_witness :
    ∃ wi before after,
      ([[2, 4, 5], [1, 8, 7], [1, 7, 7]] : List (List Nat))[1]? = some wi ∧
      measureCells sampleLocale (⟨["1", "fedora28", "running"]⟩ : vshTableRow).cells =
        Except.ok wi ∧
      List.Forall₂ (fun w m => w ≤ m) wi [2, 8, 7] ∧
      vshTableRowPrint ⟨["1", "fedora28", "running"]⟩ [2, 8, 7] wi vshPrintCB.vshPrint
          ⟨[], ⟨""⟩⟩ false =
        Except.ok ⟨[], ⟨"" ++ rowLine [2, 8, 7] wi ⟨["1", "fedora28", "running"]⟩⟩⟩ ∧
      vshTablePrintToString sampleLocale sampleTable true =
        Except.ok ⟨some (before ++ rowLine [2, 8, 7] wi ⟨["1", "fedora28", "running"]⟩ ++
          after), []⟩ :=
  printed_row_text sampleLocale sampleTable ⟨["Id", "Name", "State"]⟩ true [2, 8, 7]
    [[2, 4, 5], [1, 8, 7], [1, 7, 7]] 1 ⟨["1", "fedora28", "running"]⟩ vshPrintCB.vshPrint
    ⟨[], ⟨""⟩⟩ (by decide) (by decide) rfl rfl rfl (Or.inl rfl)

theorem print_composition_witness :
    vshTablePrintToString sampleLocale sampleTable true =
        Except.ok ⟨some (" Id   Name       State    \n" ++ "--------------------------\n" ++
          " 1    fedora28   running  \n" ++ " 2    rhel7.5    running  \n"), []⟩ ∧
      ∃ frags, vshTablePrint sampleLocale sampleTable true true = Except.ok ⟨none, frags⟩ ∧
        fragmentsText frags =
          " Id   Name       State    \n" ++ "--------------------------\n" ++
            " 1    fedora28   running  \n" ++ " 2    rhel7.5    running  \n" :=
  (print_composition sampleLocale sampleTable ⟨["Id", "Name", "State"]⟩ true [2, 8, 7]
    [[2, 4, 5], [1, 8, 7], [1, 7, 7]] (by decide) (by decide) rfl rfl).2

theorem divider_dashes_witness :
    vshTablePrint.divider [2] false 0 1 ⟨[], ⟨" Id  \n"⟩⟩ =
        Except.ok ⟨[], ⟨" Id  \n" ++ "-----"⟩⟩ ∧
      vshTablePrintToString sampleLocale singleColumnTable true =
        Except.ok ⟨some (" Id  \n" ++ "-----\n" ++ " 1   \n" ++ " 2   \n" ++ " 3   \n" ++
          " 4   \n"), []⟩ ∧
      ∃ m, ([2] : List Nat) = [m] ∧ (([2] : List Nat).map (fun m => m + 3)).sum = m + 3 :=
  have h := divider_dashes sampleLocale singleColumnTable ⟨["Id"]⟩ [2]
    [[2], [1], [1], [1], [1]] ⟨[], ⟨" Id  \n"⟩⟩ (by decide) (by decide) rfl rfl
  ⟨h.1, h.2.2.1, h.2.2.2 rfl⟩

theorem maxwidths_maximum_witness :
    ∃ m, ([1, 8, 7] : List Nat)[1]? = some m ∧
      (∀ (i : Nat) (row : vshTableRow), (if false then 0 else 1) ≤ i →
        sampleTable.rows[i]? = some row →
        ∃ wi w cell, ([[0, 0, 0], [1, 8, 7], [1, 7, 7]] : List (List Nat))[i]? = some wi ∧
          wi[1]? = some w ∧ row.cells[1]? = some cell ∧
          vshTableGetColumnsWidths.len sampleLocale cell = Except.ok w ∧ w ≤ m) ∧
      ((if false then 0 else 1) < sampleTable.nrows →
        ∃ (i : Nat) (wi : List Nat), (if false then 0 else 1) ≤ i ∧ i < sampleTable.nrows ∧
          ([[0, 0, 0], [1, 8, 7], [1, 7, 7]] : List (List Nat))[i]? = some wi ∧
          wi[1]? = some m) ∧
      (sampleTable.nrows ≤ (if false then 0 else 1) → m = 0) :=
  maxwidths_maximum sampleLocale sampleTable ⟨["Id", "Name", "State"]⟩ false [1, 8, 7]
    [[0, 0, 0], [1, 8, 7], [1, 7, 7]] 1 (by decide) rfl rfl (by decide)

theorem columns_align_witness :
    strlen "cafe" = 4 ∧ strlen "café" = 5 ∧
      ∃ wi, ([[2, 4], [1, 4], [1, 4]] : List (List Nat))[2]? = some wi ∧
        measureCells sampleLocale (⟨["2", "café"]⟩ : vshTableRow).cells = Except.ok wi ∧
        wi.length = ([2, 4] : List Nat).length ∧
        (List.zipWith vshTableRowPrint.padding [2, 4] wi).length =
          (⟨["2", "café"]⟩ : vshTableRow).ncells ∧
        vshTableRowPrint ⟨["2", "café"]⟩ [2, 4] wi vshPrintCB.vshPrint ⟨[], ⟨""⟩⟩ false =
          Except.ok ⟨[],
            ⟨"" ++ paddedFields ["2", "café"]
              (List.zipWith vshTableRowPrint.padding [2, 4] wi) ++ "\n"⟩⟩ ∧
        vshTableRowPrint ⟨["2", "café"]⟩ [2, 4] wi vshPrintCB.vshPrint ⟨[], ⟨""⟩⟩ true =
          Except.ok ⟨[] ++ paddedFragments vshPrintCB.vshPrint ["2", "café"]
              (List.zipWith vshTableRowPrint.padding [2, 4] wi) ++
            [(vshPrintCB.vshPrint, "\n")], ⟨""⟩⟩ ∧
        (∃ before after, vshTablePrintToString sampleLocale accentTable true =
          Except.ok ⟨some (before ++
            (paddedFields ["2", "café"] (List.zipWith vshTableRowPrint.padding [2, 4] wi) ++
              "\n") ++ after), []⟩) ∧
        vshTablePrint.divider [2, 4] false 0 (⟨["Id", "Name"]⟩ : vshTableRow).ncells
            ⟨[], ⟨""⟩⟩ =
          Except.ok ⟨[], ⟨"" ++ chars '-' (fieldWidths [2, 4] wi).sum⟩⟩ ∧
        (∀ (j m w : Nat), ([2, 4] : List Nat)[j]? = some m → wi[j]? = some w →
          1 + w + vshTableRowPrint.padding m w = m + 3) ∧
        fieldWidths [2, 4] wi = [5, 7] ∧
        (fieldWidths [2, 4] wi).sum = 12 ∧
        ∀ j : Nat, ((fieldWidths [2, 4] wi).take j).sum =
          ((([2, 4] : List Nat).map (fun m => m + 3)).take j).sum :=
  ⟨by decide, by decide,
    columns_align sampleLocale accentTable ⟨["Id", "Name"]⟩ true [2, 4]
      [[2, 4], [1, 4], [1, 4]] 2 ⟨["2", "café"]⟩ vshPrintCB.vshPrint ⟨[], ⟨""⟩⟩
      (by decide) (by decide) rfl rfl rfl (Or.inl rfl)⟩

theorem append_cell_count_mismatch_witness :
    vshTableRowAppend { rows := [⟨["Id", "Name"]⟩] } ["2", "rhel7.5", "running"] =
      Except.ok ⟨-1, { rows := [⟨["Id", "Name"]⟩] }, some errCellCount⟩ :=
  append_cell_count_mismatch { rows := [⟨["Id", "Name"]⟩] } ⟨["Id", "Name"]⟩
    ["2", "rhel7.5", "running"] rfl (by decide) (by decide)

theorem append_empty_row_witness :
    vshTableRowAppend { rows := [⟨["Id", "Name"]⟩] } [] =
        Except.ok ⟨-1, { rows := [⟨["Id", "Name"]⟩] }, some errRowEmpty⟩ ∧
      errRowEmpty ≠ errCellCount ∧
      ∃ r, vshTableRowAppend { rows := [⟨["Id", "Name"]⟩] } [] = Except.ok r ∧
        vshTableRowAppend r.table ["2", "rhel7.5"] =
          Except.ok ⟨0, { rows := [⟨["Id", "Name"]⟩, ⟨["2", "rhel7.5"]⟩] }, none⟩ :=
  append_empty_row { rows := [⟨["Id", "Name"]⟩] } ⟨["Id", "Name"]⟩ ["2", "rhel7.5"] rfl
    (by decide) rfl

theorem append_row_success_witness :
    ∃ r, vshTableRowAppend { rows := [⟨["Id", "Name"]⟩] } ["2", "rhel7.5"] = Except.ok r ∧
      r.ret = 0 ∧ r.reported = none ∧
      r.table.rows = [⟨["Id", "Name"]⟩, ⟨["2", "rhel7.5"]⟩] ∧
      r.table.nrows = 2 ∧
      r.table.rows[1]? = some ⟨["2", "rhel7.5"]⟩ ∧
      ∀ (i : Nat) (row : vshTableRow),
        ([⟨["Id", "Name"]⟩] : List vshTableRow)[i]? = some row →
        r.table.rows[i]? = some row :=
  append_row_success { rows := [⟨["Id", "Name"]⟩] } ⟨["Id", "Name"]⟩ ["2", "rhel7.5"] rfl
    (by decide) rfl

theorem new_table_header_witness :
    ∃ table header, vshTableNew ["Id", "Name", "State"] = Except.ok table ∧
      table.nrows = 1 ∧ table.rows = [header] ∧ header.ncells = 3 ∧
      header.cells = ["Id", "Name", "State"] :=
  new_table_header ["Id", "Name", "State"] (by decide)

/-! ## Tables built through the interface -/

theorem vshTableNew_ok (args : List String) (table : vshTable)
    (h : vshTableNew args = Except.ok table) :
    args ≠ [] ∧ table = { rows := [⟨args⟩] } := by
  cases args with
  | nil => simp [vshTableNew, vshTableRowNew] at h
  | cons arg ap =>
    simp only [vshTableNew, vshTableRowNew_cons, List.nil_append, Except.ok.injEq] at h
    exact ⟨by simp, h.symm⟩

theorem append_table (table : vshTable) (args : List String) (r : AppendResult)
    (h : vshTableRowAppend table args = Except.ok r) :
    r.table = table ∨
      ∃ header, table.rows.head? = some header ∧ args.length = header.ncells ∧
        r.table = { rows := table.rows ++ [⟨args⟩] } := by
  unfold vshTableRowAppend at h
  cases h0 : table.rows.head? with
  | none => simp [h0] at h
  | some header =>
    simp only [h0] at h
    cases args with
    | nil =>
      simp only [vshTableRowNew, Except.ok.injEq] at h
      left
      rw [← h]
    | cons arg ap =>
      simp only [vshTableRowNew_cons] at h
      by_cases hn : header.ncells = (⟨arg :: ap⟩ : vshTableRow).ncells
      · simp only [hn, ne_eq, not_true_eq_false, if_false, Except.ok.injEq] at h
        right
        exact ⟨header, rfl, by rw [hn]; rfl, by rw [← h]⟩
      · simp only [ne_eq, hn, not_false_eq_true, if_true, Except.ok.injEq] at h
        left
        rw [← h]

theorem reachable_invariant (table : vshTable) (h : Reachable table) :
    ∃ header, table.rows.head? = some header ∧ 1 ≤ header.ncells ∧
      ∀ row ∈ table.rows, row.ncells = header.ncells := by
  induction h with
  | created args table hnew =>
    obtain ⟨hne, ht⟩ := vshTableNew_ok args table hnew
    subst ht
    refine ⟨⟨args⟩, rfl, ?_, by simp⟩
    cases args with
    | nil => exact absurd rfl hne
    | cons a ap => simp [vshTableRow.ncells]
  | appended table args r _ happ ih =>
    obtain ⟨header, h0, h1, hall⟩ := ih
    rcases append_table table args r happ with e | ⟨hd, hh, hlen, e⟩
    · rw [e]
      exact ⟨header, h0, h1, hall⟩
    · rw [h0] at hh
      simp only [Option.some.injEq] at hh
      subst hh
      rw [e]
      refine ⟨header, ?_, h1, ?_⟩
      · cases hr : table.rows with
        | nil => rw [hr] at h0; simp at h0
        | cons x xs => rw [hr] at h0; simpa using h0
      · intro row hrow
        rcases List.mem_append.mp hrow with hm | hm
        · exact hall row hm
        · simp only [List.mem_singleton] at hm
          rw [hm]
          exact hlen

theorem reachable_wellFormed (table : vshTable) (h : Reachable table) :
    table.wellFormed := by
  obtain ⟨header, h0, _, hall⟩ := reachable_invariant table h
  obtain ⟨rows⟩ := table
  cases rows with
  | nil => simp at h0
  | cons row0 rest =>
    simp only [List.head?_cons, Option.some.injEq] at h0
    subst h0
    intro row hrow
    exact hall row (List.mem_cons_of_mem _ hrow)

theorem append_total (table : vshTable) (header : vshTableRow) (args : List String)
    (h0 : table.rows.head? = some header) :
    ∃ r, vshTableRowAppend table args = Except.ok r := by
  unfold vshTableRowAppend
  simp only [h0]
  cases vshTableRowNew args with
  | error e => exact ⟨_, rfl⟩
  | ok row =>
    by_cases hn : header.ncells ≠ row.ncells
    · simp only []
      rw [if_pos hn]
      exact ⟨_, rfl⟩
    · simp only []
      rw [if_neg hn]
      exact ⟨_, rfl⟩

/-- C11: every table reachable from a successful `vshTableNew` by calls of
`vshTableRowAppend`, successful or failed, has at least one row, its header has
at least one cell, and every row, the header included, has as many cells as
the header. On such a table every further call of `vshTableRowAppend` returns,
so the tables of any sequence of calls are reachable. -/
theorem reachable_table_invariant (table : vshTable) (h : Reachable table) :
    1 ≤ table.nrows ∧
      ∃ header, table.rows.head? = some header ∧ 1 ≤ header.ncells ∧
        (∀ row ∈ table.rows, row.ncells = header.ncells) ∧
        ∀ args, ∃ r, vshTableRowAppend table args = Except.ok r ∧ Reachable r.table := by
  obtain ⟨header, h0, h1, hall⟩ := reachable_invariant table h
  refine ⟨?_, header, h0, h1, hall, ?_⟩
  · cases hr : table.rows with
    | nil => rw [hr] at h0; simp at h0
    | cons x xs => simp [vshTable.nrows, hr]
  · intro args
    obtain ⟨r, hr⟩ := append_total table header args h0
    exact ⟨r, hr, Reachable.appended table args r h hr⟩

theorem reachable_table_invariant_witness :
    1 ≤ (vshTable.mk [⟨["Id", "Name"]⟩, ⟨["2", "rhel7.5"]⟩]).nrows ∧
      ∃ header, (vshTable.mk [⟨["Id", "Name"]⟩, ⟨["2", "rhel7.5"]⟩]).rows.head? = some header ∧
        1 ≤ header.ncells ∧
        (∀ row ∈ (vshTable.mk [⟨["Id", "Name"]⟩, ⟨["2", "rhel7.5"]⟩]).rows,
          row.ncells = header.ncells) ∧
        ∀ args, ∃ r,
          vshTableRowAppend (vshTable.mk [⟨["Id", "Name"]⟩, ⟨["2", "rhel7.5"]⟩]) args =
            Except.ok r ∧ Reachable r.table :=
  reachable_table_invariant (vshTable.mk [⟨["Id", "Name"]⟩, ⟨["2", "rhel7.5"]⟩])
    (Reachable.appended (vshTable.mk [⟨["Id", "Name"]⟩, ⟨["2", "rhel7.5"]⟩]) ["2"]
      ⟨-1, vshTable.mk [⟨["Id", "Name"]⟩, ⟨["2", "rhel7.5"]⟩], some errCellCount⟩
      (Reachable.appended (vshTable.mk [⟨["Id", "Name"]⟩]) ["2", "rhel7.5"]
        ⟨0, vshTable.mk [⟨["Id", "Name"]⟩, ⟨["2", "rhel7.5"]⟩], none⟩
        (Reachable.created ["Id", "Name"] (vshTable.mk [⟨["Id", "Name"]⟩]) rfl) rfl) rfl)

/-! ## Failure of the width computation -/

theorem len_of_noWidth (L : Locale) (cell : String) (h : noWidth L cell) :
    vshTableGetColumnsWidths.len L cell = Except.error Abort.negativeWidth := by
  unfold noWidth at h
  unfold vshTableGetColumnsWidths.len
  cases hm : L.mbstowcs cell with
  | none => simp [hm] at h
  | some wstr =>
    simp only [hm] at h ⊢
    simp [h]

theorem len_of_not_noWidth (L : Locale) (cell : String) (h : ¬ noWidth L cell) :
    ∃ n, vshTableGetColumnsWidths.len L cell = Except.ok n := by
  unfold noWidth at h
  unfold vshTableGetColumnsWidths.len
  cases hm : L.mbstowcs cell with
  | none => exact ⟨_, rfl⟩
  | some wstr =>
    simp only [hm] at h ⊢
    simp only [h, if_false]
    exact ⟨_, rfl⟩

theorem measureCells_fail (L : Locale) :
    ∀ cells : List String, (∃ cell ∈ cells, noWidth L cell) →
      measureCells L cells = Except.error Abort.negativeWidth := by
  intro cells
  induction cells with
  | nil => intro h; simp at h
  | cons cell rest ih =>
    intro h
    unfold measureCells
    by_cases hc : noWidth L cell
    · rw [len_of_noWidth L cell hc]
    · obtain ⟨n, hn⟩ := len_of_not_noWidth L cell hc
      obtain ⟨c, hcm, hbad⟩ := h
      rcases List.mem_cons.mp hcm with e | e
      · subst e
        exact absurd hbad hc
      · rw [hn]
        simp only []
        rw [ih ⟨c, e, hbad⟩]

theorem measureCells_succeed (L : Locale) :
    ∀ cells : List String, (∀ cell ∈ cells, ¬ noWidth L cell) →
      ∃ ns, measureCells L cells = Except.ok ns := by
  intro cells
  induction cells with
  | nil => intro _; exact ⟨[], rfl⟩
  | cons cell rest ih =>
    intro h
    obtain ⟨n, hn⟩ := len_of_not_noWidth L cell (h cell (List.mem_cons_self _ _))
    obtain ⟨ns, hns⟩ := ih (fun c hc => h c (List.mem_cons_of_mem _ hc))
    exact ⟨n :: ns, by simp only [measureCells, hn, hns]⟩

theorem measureRows_fail (L : Locale) :
    ∀ rows : List vshTableRow, (∃ row ∈ rows, ∃ cell ∈ row.cells, noWidth L cell) →
      measureRows L rows = Except.error Abort.negativeWidth := by
  intro rows
  induction rows with
  | nil => intro h; simp at h
  | cons row rest ih =>
    intro h
    unfold measureRows
    by_cases hr : ∃ cell ∈ row.cells, noWidth L cell
    · rw [measureCells_fail L row.cells hr]
    · obtain ⟨ns, hns⟩ := measureCells_succeed L row.cells
        (fun c hc hbad => hr ⟨c, hc, hbad⟩)
      obtain ⟨r, hrm, hbad⟩ := h
      rcases List.mem_cons.mp hrm with e | e
      · subst e
        exact absurd hbad hr
      · rw [hns]
        simp only []
        rw [ih ⟨r, e, hbad⟩]

theorem measureRows_succeed (L : Locale) :
    ∀ rows : List vshTableRow, (∀ row ∈ rows, ∀ cell ∈ row.cells, ¬ noWidth L cell) →
      ∃ nss, measureRows L rows = Except.ok nss := by
  intro rows
  induction rows with
  | nil => intro _; exact ⟨[], rfl⟩
  | cons row rest ih =>
    intro h
    obtain ⟨ns, hns⟩ := measureCells_succeed L row.cells (h row (List.mem_cons_self _ _))
    obtain ⟨nss, hnss⟩ := ih (fun r hr => h r (List.mem_cons_of_mem _ hr))
    exact ⟨ns :: nss, by simp only [measureRows, hns, hnss]⟩

theorem measuredRows_cons (row0 : vshTableRow) (rest : List vshTableRow) (header : Bool) :
    measuredRows { rows := row0 :: rest } header = if header then row0 :: rest else rest := by
  cases header <;> simp [measuredRows]

theorem print_fail (L : Locale) (row0 : vshTableRow) (rest : List vshTableRow)
    (hwf : ∀ row ∈ rest, row.ncells = row0.ncells) (header toStdout : Bool)
    (hm : measureRows L (if header then row0 :: rest else rest) =
      Except.error Abort.negativeWidth) :
    vshTableGetColumnsWidths L { rows := row0 :: rest } (List.replicate row0.ncells 0)
        (List.replicate (rest.length + 1) (List.replicate row0.ncells 0)) header =
        Except.error Abort.negativeWidth ∧
      vshTablePrint L { rows := row0 :: rest } header toStdout = Except.ok ⟨none, []⟩ := by
  have hg := getColumnsWidths_eq L row0 rest hwf header
  rw [hm] at hg
  simp only [] at hg
  refine ⟨hg, ?_⟩
  simp only [vshTablePrint, List.head?_cons, vshTable.nrows, List.length_cons, hg]

theorem print_succeed (L : Locale) (row0 : vshTableRow) (rest : List vshTableRow)
    (hwf : ∀ row ∈ rest, row.ncells = row0.ncells)
    (hrep : ∀ row ∈ row0 :: rest, ∀ cell ∈ row.cells, strlen cell + 3 < SIZE_MOD)
    (header : Bool) (nss : List (List Nat))
    (hm : measureRows L (if header then row0 :: rest else rest) = Except.ok nss) :
    ∃ mw ws text frags,
      vshTableGetColumnsWidths L { rows := row0 :: rest } (List.replicate row0.ncells 0)
        (List.replicate (rest.length + 1) (List.replicate row0.ncells 0)) header =
        Except.ok (mw, ws) ∧
      vshTablePrint L { rows := row0 :: rest } header false = Except.ok ⟨some text, []⟩ ∧
      vshTablePrint L { rows := row0 :: rest } header true = Except.ok ⟨none, frags⟩ ∧
      fragmentsText frags = text := by
  have hg := getColumnsWidths_eq L row0 rest hwf header
  rw [hm] at hg
  simp only [] at hg
  obtain ⟨_, hp⟩ := print_eq L row0 rest hwf hrep header _ _ hg
  obtain ⟨frags, hf, ht⟩ := print_sameText L _ header _ hp
  exact ⟨_, _, _, frags, hg, hp, hf, ht⟩

theorem measured_row_widths (L : Locale) (row0 : vshTableRow) (rest : List vshTableRow)
    (hwf : ∀ row ∈ rest, row.ncells = row0.ncells) (header : Bool)
    (mw : List Nat) (ws : List (List Nat))
    (hw : vshTableGetColumnsWidths L { rows := row0 :: rest } (List.replicate row0.ncells 0)
      (List.replicate (rest.length + 1) (List.replicate row0.ncells 0)) header =
        Except.ok (mw, ws))
    (i : Nat) (row : vshTableRow) (hi : (if header then 0 else 1) ≤ i)
    (hrow : (row0 :: rest)[i]? = some row) :
    ∃ wi, ws[i]? = some wi ∧ measureCells L row.cells = Except.ok wi := by
  obtain ⟨nss, hm, _, hws⟩ := widths_measured L row0 rest hwf header mw ws hw
  have hF := measureRows_forall₂ L _ _ hm
  have hfind : ∃ k : Nat, (if header then row0 :: rest else rest)[k]? = some row ∧
      ws[i]? = nss[k]? := by
    cases header with
    | true => exact ⟨i, by simpa using hrow, by simp [hws]⟩
    | false =>
      cases i with
      | zero => simp at hi
      | succ k => exact ⟨k, by simpa using hrow, by simp [hws]⟩
  obtain ⟨k, hk, hwk⟩ := hfind
  obtain ⟨wi, hwi, hmc⟩ := forall₂_getElem? _ _ _ hF k row hk
  exact ⟨wi, by rw [hwk, hwi], hmc⟩

theorem len_value (L : Locale) (cell : String) (w : Nat)
    (h : vshTableGetColumnsWidths.len L cell = Except.ok w) :
    (L.mbstowcs cell = none → w = strlen cell) ∧
      ∀ wstr, L.mbstowcs cell = some wstr →
        0 ≤ L.wcswidth wstr ∧ w = (L.wcswidth wstr % 2 ^ 32).toNat ∧
          (L.wcswidth wstr < 2 ^ 31 → (w : Int) = L.wcswidth wstr) := by
  unfold vshTableGetColumnsWidths.len at h
  cases hm : L.mbstowcs cell with
  | none =>
    simp only [hm, Except.ok.injEq] at h
    exact ⟨fun _ => h.symm, fun wstr hc => by simp at hc⟩
  | some ws =>
    simp only [hm] at h
    refine ⟨fun hc => by simp at hc, ?_⟩
    intro wstr hc
    simp only [Option.some.injEq] at hc
    subst hc
    by_cases hneg : L.wcswidth ws < 0
    · simp [hneg] at h
    · simp only [hneg, if_false, Except.ok.injEq] at h
      have h0 : 0 ≤ L.wcswidth ws := Int.not_lt.mp hneg
      refine ⟨h0, h.symm, ?_⟩
      intro hlt
      rw [← h]
      have hmod : L.wcswidth ws % 2 ^ 32 = L.wcswidth ws :=
        Int.emod_eq_of_lt h0 (by omega)
      rw [hmod]
      exact Int.toNat_of_nonneg h0

/-- C12: after a successful `vshTableGetColumnsWidths` on a well-formed table
the width recorded for a measured cell is its byte length when `mbstowcs` fails
on its text, and the value of `wcswidth` (cast through `unsigned`, which is the
value itself for an `int` that is not negative) when the conversion succeeds.
A failed conversion makes the computation of `len` succeed with the byte
length, and a table all of whose measured cells fail to convert is rendered. -/
theorem recorded_width (L : Locale) (table : vshTable) (row0 : vshTableRow)
    (header : Bool) (maxwidths : List Nat) (widths : List (List Nat)) (i j : Nat)
    (row : vshTableRow) (cell : String)
    (hwf : table.wellFormed) (hrep : table.representable)
    (h0 : table.rows.head? = some row0)
    (hw : vshTableGetColumnsWidths L table (List.replicate row0.ncells 0)
      (List.replicate table.nrows (List.replicate row0.ncells 0)) header =
        Except.ok (maxwidths, widths))
    (hi : (if header then 0 else 1) ≤ i) (hrow : table.rows[i]? = some row)
    (hcell : row.cells[j]? = some cell) :
    (∃ wi w, widths[i]? = some wi ∧ wi[j]? = some w ∧
        (L.mbstowcs cell = none → w = strlen cell) ∧
        ∀ wstr, L.mbstowcs cell = some wstr →
          0 ≤ L.wcswidth wstr ∧ w = (L.wcswidth wstr % 2 ^ 32).toNat ∧
            (L.wcswidth wstr < 2 ^ 31 → (w : Int) = L.wcswidth wstr)) ∧
      (∀ c, L.mbstowcs c = none →
        vshTableGetColumnsWidths.len L c = Except.ok (strlen c)) ∧
      ((∀ r ∈ measuredRows table header, ∀ c ∈ r.cells, L.mbstowcs c = none) →
        ∃ text, vshTablePrintToString L table header = Except.ok ⟨some text, []⟩) := by
  obtain ⟨rest, ht, hr⟩ := table_eq_of_head table row0 hwf h0
  subst ht
  simp only [vshTable.nrows, List.length_cons] at hw
  refine ⟨?_, ?_, ?_⟩
  · obtain ⟨wi, hwi, hmc⟩ := measured_row_widths L row0 rest hr header maxwidths widths hw
      i row hi hrow
    obtain ⟨w, hwj, hlen⟩ := forall₂_getElem? _ _ _ (measureCells_forall₂ L _ _ hmc) j cell
      hcell
    obtain ⟨h1, h2⟩ := len_value L cell w hlen
    exact ⟨wi, w, hwi, hwj, h1, h2⟩
  · intro c hc
    simp [vshTableGetColumnsWidths.len, hc]
  · intro hall
    rw [measuredRows_cons] at hall
    obtain ⟨nss, hnss⟩ := measureRows_succeed L _ (fun r hrm c hc hbad => by
      have := hall r hrm c hc
      simp [noWidth, this] at hbad)
    obtain ⟨_, _, text, _, _, hp, _, _⟩ := print_succeed L row0 rest hr hrep header nss hnss
    exact ⟨text, hp⟩

theorem recorded_width_witness :
    strlen "café" = 5 ∧
    (∃ wi w, ([[2, 4], [1, 4], [1, 5]] : List (List Nat))[2]? = some wi ∧ wi[1]? = some w ∧
        (asciiLocale.mbstowcs "café" = none → w = strlen "café") ∧
        ∀ wstr, asciiLocale.mbstowcs "café" = some wstr →
          0 ≤ asciiLocale.wcswidth wstr ∧ w = (asciiLocale.wcswidth wstr % 2 ^ 32).toNat ∧
            (asciiLocale.wcswidth wstr < 2 ^ 31 → (w : Int) = asciiLocale.wcswidth wstr)) ∧
      (∀ c, asciiLocale.mbstowcs c = none →
        vshTableGetColumnsWidths.len asciiLocale c = Except.ok (strlen c)) ∧
      ((∀ r ∈ measuredRows accentTable true, ∀ c ∈ r.cells, asciiLocale.mbstowcs c = none) →
        ∃ text, vshTablePrintToString asciiLocale accentTable true =
          Except.ok ⟨some text, []⟩) :=
  ⟨by decide,
    recorded_width asciiLocale accentTable ⟨["Id", "Name"]⟩ true [2, 5]
      [[2, 4], [1, 4], [1, 5]] 2 1 ⟨["2", "café"]⟩ "café" (by decide) (by decide) rfl rfl
      (by decide) rfl rfl⟩

/-- C13: a render of a well-formed table fails exactly when some cell of a
measured row (all rows with the header, the rows after the header without it)
converts and has a negative width. Then the width computation returns -1, the
buffered call returns no text and the streaming call has passed nothing to the
print functions. Otherwise the render returns its text. So a cell of the
header cannot make a render without the header fail, and under a C library
that converts the empty string to no wide characters of width 0 an empty cell
is never the cause of a failure. -/
theorem render_failure (L : Locale) (table : vshTable) (row0 : vshTableRow)
    (header : Bool)
    (hwf : table.wellFormed) (hrep : table.representable)
    (h0 : table.rows.head? = some row0) :
    ((∃ r ∈ measuredRows table header, ∃ c ∈ r.cells, noWidth L c) →
        vshTableGetColumnsWidths L table (List.replicate row0.ncells 0)
          (List.replicate table.nrows (List.replicate row0.ncells 0)) header =
          Except.error Abort.negativeWidth ∧
        vshTablePrintToString L table header = Except.ok ⟨none, []⟩ ∧
        vshTablePrint L table header true = Except.ok ⟨none, []⟩) ∧
      ((¬ ∃ r ∈ measuredRows table header, ∃ c ∈ r.cells, noWidth L c) →
        ∃ text frags, vshTablePrintToString L table header = Except.ok ⟨some text, []⟩ ∧
          vshTablePrint L table header true = Except.ok ⟨none, frags⟩ ∧
          fragmentsText frags = text) ∧
      (vshTablePrintToString L table header = Except.ok ⟨none, []⟩ ↔
        ∃ r ∈ measuredRows table header, ∃ c ∈ r.cells, noWidth L c) ∧
      (header = false → measuredRows table header = table.rows.drop 1) ∧
      (L.mbstowcs "" = some [] → L.wcswidth [] = 0 →
        ¬ noWidth L "" ∧ vshTableGetColumnsWidths.len L "" = Except.ok 0) := by
  obtain ⟨rest, ht, hr⟩ := table_eq_of_head table row0 hwf h0
  subst ht
  simp only [vshTable.nrows, List.length_cons]
  have hbad : (∃ r ∈ measuredRows { rows := row0 :: rest } header, ∃ c ∈ r.cells,
      noWidth L c) →
      vshTableGetColumnsWidths L { rows := row0 :: rest } (List.replicate row0.ncells 0)
          (List.replicate (rest.length + 1) (List.replicate row0.ncells 0)) header =
          Except.error Abort.negativeWidth ∧
        vshTablePrintToString L { rows := row0 :: rest } header = Except.ok ⟨none, []⟩ ∧
        vshTablePrint L { rows := row0 :: rest } header true = Except.ok ⟨none, []⟩ := by
    intro h
    rw [measuredRows_cons] at h
    have hm := measureRows_fail L _ h
    exact ⟨(print_fail L row0 rest hr header false hm).1,
      (print_fail L row0 rest hr header false hm).2,
      (print_fail L row0 rest hr header true hm).2⟩
  have hgood : (¬ ∃ r ∈ measuredRows { rows := row0 :: rest } header, ∃ c ∈ r.cells,
      noWidth L c) →
      ∃ text frags,
        vshTablePrintToString L { rows := row0 :: rest } header =
          Except.ok ⟨some text, []⟩ ∧
        vshTablePrint L { rows := row0 :: rest } header true = Except.ok ⟨none, frags⟩ ∧
        fragmentsText frags = text := by
    intro h
    rw [measuredRows_cons] at h
    obtain ⟨nss, hnss⟩ := measureRows_succeed L _
      (fun r hrm c hc hb => h ⟨r, hrm, c, hc, hb⟩)
    obtain ⟨_, _, text, frags, _, hp, hf, hte⟩ :=
      print_succeed L row0 rest hr hrep header nss hnss
    exact ⟨text, frags, hp, hf, hte⟩
  refine ⟨hbad, hgood, ⟨?_, fun h => (hbad h).2.1⟩, ?_, ?_⟩
  · intro hnone
    by_contra hno
    obtain ⟨text, _, hp, _, _⟩ := hgood hno
    rw [hp] at hnone
    simp at hnone
  · intro hh
    subst hh
    simp [measuredRows]
  · intro h1 h2
    refine ⟨by simp [noWidth, h1, h2], ?_⟩
    simp [vshTableGetColumnsWidths.len, h1, h2]

theorem render_failure_witness :
    vshTableGetColumnsWidths sampleLocale controlTable [0] [[0], [0]] true =
        Except.error Abort.negativeWidth ∧
      vshTablePrintToString sampleLocale controlTable true = Except.ok ⟨none, []⟩ ∧
      vshTablePrint sampleLocale controlTable true true = Except.ok ⟨none, []⟩ :=
  (render_failure sampleLocale controlTable ⟨["Id\t"]⟩ true (by decide) (by decide) rfl).1
    ⟨⟨["Id\t"]⟩, by decide, "Id\t", by decide, by decide⟩

/-! ## Renders without the header, tables without data rows, streaming -/

/-- C14: without the header the header row contributes nothing. Two tables
with the same data rows, whose headers have the same number of cells and any
texts, get the same widths from `vshTableGetColumnsWidths`, the same string
from `vshTablePrintToString` and the same fragments in a streaming render. -/
theorem header_texts_irrelevant (L : Locale) (t1 t2 : vshTable) (r1 r2 : vshTableRow)
    (toStdout : Bool)
    (h1 : t1.rows.head? = some r1) (h2 : t2.rows.head? = some r2)
    (hn : r1.ncells = r2.ncells) (hd : t1.rows.drop 1 = t2.rows.drop 1) :
    vshTableGetColumnsWidths L t1 (List.replicate r1.ncells 0)
        (List.replicate t1.nrows (List.replicate r1.ncells 0)) false =
      vshTableGetColumnsWidths L t2 (List.replicate r2.ncells 0)
        (List.replicate t2.nrows (List.replicate r2.ncells 0)) false ∧
      vshTablePrintToString L t1 false = vshTablePrintToString L t2 false ∧
      vshTablePrint L t1 false toStdout = vshTablePrint L t2 false toStdout := by
  obtain ⟨rows1⟩ := t1
  obtain ⟨rows2⟩ := t2
  cases rows1 with
  | nil => simp at h1
  | cons a rest1 =>
    cases rows2 with
    | nil => simp at h2
    | cons b rest2 =>
      simp only [List.head?_cons, Option.some.injEq] at h1 h2
      simp only [List.drop_succ_cons, List.drop_zero] at hd
      subst h1 h2 hd
      refine ⟨?_, ?_, ?_⟩
      · simp [vshTableGetColumnsWidths, vshTable.nrows, hn]
      · simp [vshTablePrintToString, vshTablePrint, vshTableGetColumnsWidths, vshTable.nrows, hn]
      · simp [vshTablePrint, vshTableGetColumnsWidths, vshTable.nrows, hn]

theorem header_texts_irrelevant_witness :
    vshTableGetColumnsWidths sampleLocale sampleTable [0, 0, 0]
        [[0, 0, 0], [0, 0, 0], [0, 0, 0]] false =
      vshTableGetColumnsWidths sampleLocale renamedTable [0, 0, 0]
        [[0, 0, 0], [0, 0, 0], [0, 0, 0]] false ∧
      vshTablePrintToString sampleLocale sampleTable false =
        vshTablePrintToString sampleLocale renamedTable false ∧
      vshTablePrint sampleLocale sampleTable false true =
        vshTablePrint sampleLocale renamedTable false true :=
  header_texts_irrelevant sampleLocale sampleTable renamedTable ⟨["Id", "Name", "State"]⟩
    ⟨["Identifier", "N", ""]⟩ true rfl rfl rfl rfl

theorem zipWith_max_zeros : ∀ w : List Nat,
    List.zipWith max (List.replicate w.length 0) w = w := by
  intro w
  induction w with
  | nil => rfl
  | cons x w ih => simp [List.replicate_succ, ih]

theorem string_join_cons (x : String) (xs : List String) :
    String.join (x :: xs) = x ++ String.join xs := by
  have h : ∀ (l : List String) (a : String),
      List.foldl (fun r s => r ++ s) a l = a ++ List.foldl (fun r s => r ++ s) "" l := by
    intro l
    induction l with
    | nil => intro a; simp
    | cons y l ih =>
      intro a
      simp only [List.foldl_cons]
      rw [ih (a ++ y), ih ("" ++ y)]
      simp [String.append_assoc]
  simp only [String.join, List.foldl_cons]
  rw [h xs ("" ++ x)]
  simp

theorem rowFields_self : ∀ (cells : List String) (w : List Nat),
    w.length = cells.length →
    rowFields w w cells = String.join (cells.map (fun c => " " ++ c ++ "  ")) := by
  intro cells
  induction cells with
  | nil =>
    intro w h
    have : w = [] := List.length_eq_zero.mp h
    subst this
    simp [rowFields, String.join]
  | cons c cells ih =>
    intro w h
    cases w with
    | nil => simp at h
    | cons x w =>
      simp only [List.length_cons, Nat.add_right_cancel_iff] at h
      simp only [rowFields, List.map_cons, string_join_cons, ih w h, Nat.sub_self]
      rfl

/-- C15: a table that has only its header row. With the header the render is
the header line, in which every cell is followed by exactly two spaces, and
the dividing line, sized from the widths of the header cells, and no body
line. Without the header the buffered render is the empty text and the
streaming render passes nothing to the print functions. -/
theorem header_only_render (L : Locale) (table : vshTable) (row0 : vshTableRow)
    (w0 : List Nat)
    (hrows : table.rows = [row0]) (hrep : table.representable)
    (hm : measureCells L row0.cells = Except.ok w0) :
    vshTablePrintToString L table true =
        Except.ok ⟨some
          (String.join (row0.cells.map (fun c => " " ++ c ++ "  ")) ++ "\n" ++
            (chars '-' (w0.map (fun m => m + 3)).sum ++ "\n")), []⟩ ∧
      vshTablePrintToString L table false = Except.ok ⟨some "", []⟩ ∧
      vshTablePrint L table false true = Except.ok ⟨none, []⟩ := by
  obtain ⟨rows⟩ := table
  simp only at hrows
  subst hrows
  refine ⟨?_, ?_, ?_⟩
  · have hmr : measureRows L [row0] = Except.ok [w0] := by
      simp only [measureRows, hm]
    have hp := print_header_eq L row0 [] (by simp) hrep w0 [] hmr
    have hlen := measureCells_length L _ _ hm
    have hmw : List.foldl (List.zipWith max) (List.replicate row0.ncells 0) [w0] = w0 := by
      simp only [List.foldl_cons, List.foldl_nil, vshTableRow.ncells, ← hlen]
      exact zipWith_max_zeros w0
    rw [hmw] at hp
    rw [vshTablePrintToString, hp]
    simp [rowLine, rowFields_self row0.cells w0 hlen, dividerLine, bodyLines,
      String.append_assoc]
  · simp [vshTablePrintToString, vshTablePrint, vshTableGetColumnsWidths,
      vshTableGetColumnsWidths.rows, vshTablePrint.content, virBufferContentAndReset,
      VIR_BUFFER_INITIALIZER]
  · simp [vshTablePrint, vshTableGetColumnsWidths, vshTableGetColumnsWidths.rows,
      vshTablePrint.content]

theorem header_only_render_witness :
    vshTablePrintToString sampleLocale headerOnlyTable true =
        Except.ok ⟨some (" Id   Name   Status  \n" ++ "---------------------\n"), []⟩ ∧
      vshTablePrintToString sampleLocale headerOnlyTable false = Except.ok ⟨some "", []⟩ ∧
      vshTablePrint sampleLocale headerOnlyTable false true = Except.ok ⟨none, []⟩ :=
  header_only_render sampleLocale headerOnlyTable ⟨["Id", "Name", "Status"]⟩ [2, 4, 6]
    rfl (by decide) rfl

theorem measureRows_cases (L : Locale) (rows : List vshTableRow) :
    measureRows L rows = Except.error Abort.negativeWidth ∨
      ∃ nss, measureRows L rows = Except.ok nss := by
  by_cases h : ∃ row ∈ rows, ∃ cell ∈ row.cells, noWidth L cell
  · left
    exact measureRows_fail L rows h
  · right
    exact measureRows_succeed L rows (fun r hr c hc hb => h ⟨r, hr, c, hc, hb⟩)

/-- C16: streaming and buffered rendering write the same text. For a
well-formed table and a control structure, `vshTablePrintToStdout` returns no
string, and the fragments that it passes to the print functions, joined in
order, are the string that `vshTablePrintToString` returns for the header flag
that the streaming call derives from the control structure: set when there is
no control structure, and the negation of `quiet` otherwise. When the width
computation fails both calls write nothing. -/
theorem streaming_equals_buffered (L : Locale) (table : vshTable) (row0 : vshTableRow)
    (ctl : Option vshControl)
    (hwf : table.wellFormed) (hrep : table.representable)
    (h0 : table.rows.head? = some row0) :
    ∃ frags, vshTablePrintToStdout L table ctl = Except.ok ⟨none, frags⟩ ∧
      (vshTablePrintToString L table
          (match ctl with
            | some c => !c.quiet
            | none => true) =
          Except.ok ⟨some (fragmentsText frags), []⟩ ∨
        (frags = [] ∧
          vshTablePrintToString L table
            (match ctl with
              | some c => !c.quiet
              | none => true) = Except.ok ⟨none, []⟩)) := by
  obtain ⟨rest, ht, hr⟩ := table_eq_of_head table row0 hwf h0
  subst ht
  unfold vshTablePrintToStdout vshTablePrintToString
  generalize (match ctl with
    | some c => !c.quiet
    | none => true) = header
  rcases measureRows_cases L (if header then row0 :: rest else rest) with hm | ⟨nss, hm⟩
  · exact ⟨[], (print_fail L row0 rest hr header true hm).2,
      Or.inr ⟨rfl, (print_fail L row0 rest hr header false hm).2⟩⟩
  · obtain ⟨_, _, text, frags, _, hp, hf, hte⟩ :=
      print_succeed L row0 rest hr hrep header nss hm
    exact ⟨frags, hf, Or.inl (by rw [hte]; exact hp)⟩

theorem streaming_equals_buffered_witness :
    ∃ frags, vshTablePrintToStdout sampleLocale sampleTable (some ⟨true⟩) =
        Except.ok ⟨none, frags⟩ ∧
      (vshTablePrintToString sampleLocale sampleTable
          (match (some ⟨true⟩ : Option vshControl) with
            | some c => !c.quiet
            | none => true) =
          Except.ok ⟨some (fragmentsText frags), []⟩ ∨
        (frags = [] ∧
          vshTablePrintToString sampleLocale sampleTable
            (match (some ⟨true⟩ : Option vshControl) with
              | some c => !c.quiet
              | none => true) = Except.ok ⟨none, []⟩)) :=
  streaming_equals_buffered sampleLocale sampleTable ⟨["Id", "Name", "State"]⟩ (some ⟨true⟩)
    (by decide) (by decide) rfl

/-! ## The length of the dividing line -/

theorem foldl_max_bounds : ∀ (l : List Nat) (a : Nat),
    a ≤ l.foldl max a ∧ ∀ m ∈ l, m ≤ l.foldl max a := by
  intro l
  induction l with
  | nil => intro a; simp
  | cons x l ih =>
    intro a
    obtain ⟨h1, h2⟩ := ih (max a x)
    simp only [List.foldl_cons]
    refine ⟨Nat.le_trans (Nat.le_max_left a x) h1, ?_⟩
    intro m hm
    rcases List.mem_cons.mp hm with e | e
    · rw [e]; exact Nat.le_trans (Nat.le_max_right a x) h1
    · exact h2 m e

theorem sum_add_three_le : ∀ (l : List Nat) (b : Nat), (∀ m ∈ l, m ≤ b) →
    (l.map (fun m => m + 3)).sum ≤ l.length * (b + 3) := by
  intro l
  induction l with
  | nil => intro b _; simp
  | cons x l ih =>
    intro b h
    have hx := h x (List.mem_cons_self _ _)
    have hl := ih b (fun m hm => h m (List.mem_cons_of_mem _ hm))
    simp only [List.map_cons, List.sum_cons, List.length_cons]
    rw [Nat.add_mul]
    omega

theorem sum_add_three_eq : ∀ (l : List Nat) (b : Nat), (∀ m ∈ l, m = b) →
    (l.map (fun m => m + 3)).sum = l.length * (b + 3) := by
  intro l
  induction l with
  | nil => intro b _; simp
  | cons x l ih =>
    intro b h
    have hx := h x (List.mem_cons_self _ _)
    have hl := ih b (fun m hm => h m (List.mem_cons_of_mem _ hm))
    simp only [List.map_cons, List.sum_cons, List.length_cons]
    rw [Nat.add_mul]
    omega

theorem chars_length (c : Char) (n : Nat) : (chars c n).length = n := by
  simp [chars, String.length]

/-- C17, as amended: in a render with the header of a well-formed table the
dividing line is made of `sum (maxwidths[col] + 3)` dashes. That number is at
most the number of columns times the largest maximum and three more, and it is
that product when all columns have the same maximum. -/
theorem divider_length (L : Locale) (table : vshTable) (row0 : vshTableRow)
    (maxwidths : List Nat) (widths : List (List Nat)) (o : Output)
    (hwf : table.wellFormed) (hrep : table.representable)
    (h0 : table.rows.head? = some row0)
    (hw : vshTableGetColumnsWidths L table (List.replicate row0.ncells 0)
      (List.replicate table.nrows (List.replicate row0.ncells 0)) true =
        Except.ok (maxwidths, widths)) :
    vshTablePrint.divider maxwidths false 0 row0.ncells o =
        Except.ok ⟨o.stdout,
          ⟨o.buf.content ++ chars '-' (maxwidths.map (fun m => m + 3)).sum⟩⟩ ∧
      (chars '-' (maxwidths.map (fun m => m + 3)).sum).length =
        (maxwidths.map (fun m => m + 3)).sum ∧
      (maxwidths.map (fun m => m + 3)).sum ≤ row0.ncells * (maxwidths.foldl max 0 + 3) ∧
      ((∀ m ∈ maxwidths, m = maxwidths.foldl max 0) →
        (maxwidths.map (fun m => m + 3)).sum = row0.ncells * (maxwidths.foldl max 0 + 3)) := by
  obtain ⟨rest, ht, hr⟩ := table_eq_of_head table row0 hwf h0
  subst ht
  simp only [vshTable.nrows, List.length_cons] at hw
  obtain ⟨f1, f3, _⟩ := printed_row_widths L row0 rest hr hrep true maxwidths widths hw
  have hdiv := divider_eq maxwidths [] o f3
  simp only [List.nil_append, List.length_nil, f1] at hdiv
  refine ⟨hdiv, chars_length _ _, ?_, ?_⟩
  · rw [← f1]
    exact sum_add_three_le maxwidths _ (foldl_max_bounds maxwidths 0).2
  · intro hall
    rw [← f1]
    exact sum_add_three_eq maxwidths _ hall

theorem divider_length_witness :
    vshTablePrint.divider [2, 8, 7] false 0 3 ⟨[], ⟨""⟩⟩ =
        Except.ok ⟨[], ⟨"" ++ chars '-' 26⟩⟩ ∧
      (chars '-' 26).length = 26 ∧
      26 ≤ 3 * (([2, 8, 7] : List Nat).foldl max 0 + 3) :=
  have h := divider_length sampleLocale sampleTable ⟨["Id", "Name", "State"]⟩ [2, 8, 7]
    [[2, 4, 5], [1, 8, 7], [1, 7, 7]] ⟨[], ⟨""⟩⟩ (by decide) (by decide) rfl rfl
  ⟨h.1, h.2.1, h.2.2.1⟩

/-- C17, the claim as stated fails: the table of `testVshTableHeader` has 3
columns with the maxima 2, 8 and 7; its dividing line has 26 dashes, and 3
times the largest maximum and three more is 33. -/
theorem divider_length_counterexample :
    vshTableGetColumnsWidths sampleLocale sampleTable [0, 0, 0]
        [[0, 0, 0], [0, 0, 0], [0, 0, 0]] true =
        Except.ok ([2, 8, 7], [[2, 4, 5], [1, 8, 7], [1, 7, 7]]) ∧
      vshTablePrintToString sampleLocale sampleTable true =
        Except.ok ⟨some (" Id   Name       State    \n" ++ (chars '-' 26 ++ "\n") ++
          " 1    fedora28   running  \n" ++ " 2    rhel7.5    running  \n"), []⟩ ∧
      (chars '-' 26).length = 26 ∧
      (⟨["Id", "Name", "State"]⟩ : vshTableRow).ncells *
        (([2, 8, 7] : List Nat).foldl max 0 + 3) = 33 ∧
      (chars '-' 26).length ≠ (⟨["Id", "Name", "State"]⟩ : vshTableRow).ncells *
        (([2, 8, 7] : List Nat).foldl max 0 + 3) := by
  refine ⟨rfl, rfl, by decide, by decide, by decide⟩

/-! ## The padding does not wrap around -/

/-- C18: the count of the padding loop does not wrap around. In a render of a
well-formed table every row that `vshTablePrint` hands to `vshTableRowPrint`
is a measured row, and after the successful `vshTableGetColumnsWidths` it has
`widths[i][j] <= maxwidths[j]` for every column; so the `size_t` value
`maxwidths[j] - widths[i][j] + 2` is the same number computed in the integers,
at least 2 and at most `maxwidths[j] + 2`. -/
theorem padding_no_wrap (L : Locale) (table : vshTable) (row0 : vshTableRow)
    (header : Bool) (maxwidths : List Nat) (widths : List (List Nat)) (i : Nat)
    (row : vshTableRow)
    (hwf : table.wellFormed) (hrep : table.representable)
    (h0 : table.rows.head? = some row0)
    (hw : vshTableGetColumnsWidths L table (List.replicate row0.ncells 0)
      (List.replicate table.nrows (List.replicate row0.ncells 0)) header =
        Except.ok (maxwidths, widths))
    (hrow : table.rows[i]? = some row) (hprinted : header = true ∨ 1 ≤ i) :
    (if header then 0 else 1) ≤ i ∧
      ∃ wi, widths[i]? = some wi ∧ wi.length = row.ncells ∧
        maxwidths.length = row.ncells ∧
        ∀ (j : Nat), j < row.ncells →
          ∃ m w, maxwidths[j]? = some m ∧ wi[j]? = some w ∧ w ≤ m ∧
            (vshTableRowPrint.padding m w : Int) = (m : Int) - (w : Int) + 2 ∧
            2 ≤ vshTableRowPrint.padding m w ∧ vshTableRowPrint.padding m w ≤ m + 2 := by
  obtain ⟨rest, ht, hr⟩ := table_eq_of_head table row0 hwf h0
  subst ht
  simp only [vshTable.nrows, List.length_cons] at hw
  obtain ⟨f1, f3, hrows⟩ := printed_row_widths L row0 rest hr hrep header maxwidths widths hw
  obtain ⟨wi, hwi, _, hlen, hle⟩ := hrows i row hrow hprinted
  have hmwlen : maxwidths.length = row.ncells := by
    rw [← List.Forall₂.length_eq hle, hlen]
  refine ⟨?_, wi, hwi, hlen, hmwlen, ?_⟩
  · rcases hprinted with h | h
    · simp [h]
    · cases header <;> simp [h]
  · intro j hj
    have hjw : j < wi.length := by rw [hlen]; exact hj
    obtain ⟨m, hm, hwm⟩ := forall₂_getElem? _ _ _ hle j _ (List.getElem?_eq_getElem hjw)
    have hb := f3 m (List.getElem?_mem hm)
    have hp := padding_eq m wi[j] hwm hb
    refine ⟨m, wi[j], hm, List.getElem?_eq_getElem hjw, hwm, ?_, ?_, ?_⟩
    · rw [hp]
      omega
    · rw [hp]
      omega
    · rw [hp]
      omega

theorem padding_no_wrap_witness :
    (if true then 0 else 1) ≤ 2 ∧
      ∃ wi, ([[2, 4, 5], [1, 8, 7], [1, 7, 7]] : List (List Nat))[2]? = some wi ∧
        wi.length = (⟨["2", "rhel7.5", "running"]⟩ : vshTableRow).ncells ∧
        ([2, 8, 7] : List Nat).length = (⟨["2", "rhel7.5", "running"]⟩ : vshTableRow).ncells ∧
        ∀ (j : Nat), j < (⟨["2", "rhel7.5", "running"]⟩ : vshTableRow).ncells →
          ∃ m w, ([2, 8, 7] : List Nat)[j]? = some m ∧ wi[j]? = some w ∧ w ≤ m ∧
            (vshTableRowPrint.padding m w : Int) = (m : Int) - (w : Int) + 2 ∧
            2 ≤ vshTableRowPrint.padding m w ∧ vshTableRowPrint.padding m w ≤ m + 2 :=
  padding_no_wrap sampleLocale sampleTable ⟨["Id", "Name", "State"]⟩ true [2, 8, 7]
    [[2, 4, 5], [1, 8, 7], [1, 7, 7]] 2 ⟨["2", "rhel7.5", "running"]⟩ (by decide) (by decide)
    rfl rfl rfl (Or.inl rfl)

/-! ## All accesses are within the allocated storage -/

theorem load_ok {α : Type} (a : List α) (j : Nat) (h : j < a.length) :
    ∃ v, load a j = Except.ok v ∧ a[j]? = some v := by
  refine ⟨a[j], ?_, List.getElem?_eq_getElem h⟩
  simp [load, List.getElem?_eq_getElem h]

theorem rowPrint_cells_ok (mw w : List Nat) (cb : vshPrintCB) (b : Bool) :
    ∀ (cells : List String) (i : Nat) (o : Output),
      i + cells.length ≤ mw.length → i + cells.length ≤ w.length →
      ∃ o2, vshTableRowPrint.cells mw w cb b i cells o = Except.ok o2 := by
  intro cells
  induction cells with
  | nil => intro i o _ _; exact ⟨o, rfl⟩
  | cons cell rest ih =>
    intro i o h1 h2
    simp only [List.length_cons] at h1 h2
    obtain ⟨m, hm, _⟩ := load_ok mw i (by omega)
    obtain ⟨x, hx, _⟩ := load_ok w i (by omega)
    unfold vshTableRowPrint.cells
    simp only [hm, hx]
    exact ih (i + 1) _ (by omega) (by omega)

theorem rowPrint_ok (row : vshTableRow) (mw w : List Nat) (cb : vshPrintCB) (b : Bool)
    (o : Output) (h1 : row.ncells ≤ mw.length) (h2 : row.ncells ≤ w.length) :
    ∃ o2, vshTableRowPrint row mw w cb o b = Except.ok o2 := by
  obtain ⟨o2, ho⟩ := rowPrint_cells_ok mw w cb b row.cells 0 o
    (by simpa [vshTableRow.ncells] using h1) (by simpa [vshTableRow.ncells] using h2)
  unfold vshTableRowPrint
  rw [ho]
  exact ⟨_, rfl⟩

theorem divider_ok (mw : List Nat) (b : Bool) :
    ∀ (n i : Nat) (o : Output), i + n ≤ mw.length →
      ∃ o2, vshTablePrint.divider mw b i n o = Except.ok o2 := by
  intro n
  induction n with
  | zero => intro i o _; exact ⟨o, rfl⟩
  | succ n ih =>
    intro i o h
    obtain ⟨m, hm, _⟩ := load_ok mw i (by omega)
    unfold vshTablePrint.divider
    simp only [hm]
    exact ih (i + 1) _ (by omega)

theorem content_ok (mw : List Nat) (ws : List (List Nat)) (b : Bool)
    (hws : ∀ w ∈ ws, w.length = mw.length) :
    ∀ (rows : List vshTableRow) (i : Nat) (o : Output),
      i + rows.length ≤ ws.length → (∀ row ∈ rows, row.ncells = mw.length) →
      ∃ o2, vshTablePrint.content mw ws b i rows o = Except.ok o2 := by
  intro rows
  induction rows with
  | nil => intro i o _ _; exact ⟨o, rfl⟩
  | cons row rest ih =>
    intro i o h hrows
    simp only [List.length_cons] at h
    obtain ⟨wi, hwi, hmem⟩ := load_ok ws i (by omega)
    have hlen := hws wi (List.getElem?_mem hmem)
    have hr := hrows row (List.mem_cons_self _ _)
    obtain ⟨o2, ho⟩ := rowPrint_ok row mw wi vshPrintCB.vshPrint b o
      (by rw [hr]) (by rw [hr, hlen])
    unfold vshTablePrint.content
    simp only [hwi, ho]
    exact ih (i + 1) o2 (by omega) (fun r hrm => hrows r (List.mem_cons_of_mem _ hrm))

theorem head_ok (row0 : vshTableRow) (mw : List Nat) (ws : List (List Nat)) (b : Bool)
    (o : Output) (hws : ∀ w ∈ ws, w.length = mw.length) (hpos : 0 < ws.length)
    (h0 : row0.ncells = mw.length) :
    ∃ o2, vshTablePrint.head row0 mw ws b o = Except.ok o2 := by
  obtain ⟨w0, hw0, hmem⟩ := load_ok ws 0 hpos
  have hlen := hws w0 (List.getElem?_mem hmem)
  obtain ⟨o1, ho1⟩ := rowPrint_ok row0 mw w0 vshPrintCB.vshPrintExtra b o
    (by rw [h0]) (by rw [h0, hlen])
  obtain ⟨o2, ho2⟩ := divider_ok mw b row0.ncells 0 o1 (by omega)
  unfold vshTablePrint.head
  simp only [hw0, ho1, ho2]
  exact ⟨_, rfl⟩

theorem print_ok (L : Locale) (row0 : vshTableRow) (rest : List vshTableRow)
    (hwf : ∀ row ∈ rest, row.ncells = row0.ncells) (header b : Bool) :
    (vshTableGetColumnsWidths L { rows := row0 :: rest } (List.replicate row0.ncells 0)
        (List.replicate (rest.length + 1) (List.replicate row0.ncells 0)) header =
        Except.error Abort.negativeWidth ∨
      ∃ mw ws,
        vshTableGetColumnsWidths L { rows := row0 :: rest } (List.replicate row0.ncells 0)
          (List.replicate (rest.length + 1) (List.replicate row0.ncells 0)) header =
          Except.ok (mw, ws)) ∧
      ∃ r, vshTablePrint L { rows := row0 :: rest } header b = Except.ok r := by
  rcases measureRows_cases L (if header then row0 :: rest else rest) with hm | ⟨nss, hm⟩
  · obtain ⟨h1, h2⟩ := print_fail L row0 rest hwf header b hm
    exact ⟨Or.inl h1, _, h2⟩
  · have hg := getColumnsWidths_eq L row0 rest hwf header
    rw [hm] at hg
    simp only [] at hg
    refine ⟨Or.inr ⟨_, _, hg⟩, ?_⟩
    have hall : ∀ row ∈ row0 :: rest, row.ncells = row0.ncells := by
      intro r hr
      rcases List.mem_cons.mp hr with e | e
      · rw [e]
      · exact hwf r e
    have hF := measureRows_forall₂ L _ _ hm
    have hsub : ∀ r ∈ (if header then row0 :: rest else rest), r ∈ row0 :: rest := by
      intro r hr
      cases header with
      | true => simpa using hr
      | false => exact List.mem_cons_of_mem _ (by simpa using hr)
    have hl := measured_lengths L row0.ncells _ _ (fun r hr => hall r (hsub r hr)) hF
    obtain ⟨g1, _, _⟩ := foldl_max_ge nss (List.replicate row0.ncells 0)
      (fun ns hns => by rw [hl ns hns, List.length_replicate])
    rw [List.length_replicate] at g1
    have hlen := List.Forall₂.length_eq hF
    generalize hmw : nss.foldl (List.zipWith max) (List.replicate row0.ncells 0) = mw
      at hg g1
    generalize hwsd : (if header = true then [] else [List.replicate row0.ncells 0]) ++ nss = ws
      at hg
    have hws : ∀ w ∈ ws, w.length = mw.length := by
      intro w hw
      rw [← hwsd] at hw
      rcases List.mem_append.mp hw with e | e
      · cases header with
        | true => simp at e
        | false =>
          simp only [Bool.false_eq_true, if_false, List.mem_singleton] at e
          rw [e, List.length_replicate, g1]
      · rw [hl w e, g1]
    have hwslen : ws.length = rest.length + 1 := by
      rw [← hwsd]
      cases header with
      | true => simpa using hlen.symm
      | false =>
        simp only [Bool.false_eq_true, if_false] at hlen ⊢
        simp [hlen]
    obtain ⟨o1, ho1⟩ : ∃ o1, (if header = true then
        vshTablePrint.head row0 mw ws b ⟨[], VIR_BUFFER_INITIALIZER⟩
        else Except.ok ⟨[], VIR_BUFFER_INITIALIZER⟩) = Except.ok o1 := by
      cases header with
      | true =>
        simp only [if_true]
        exact head_ok row0 mw ws b _ hws (by omega) g1.symm
      | false => exact ⟨_, rfl⟩
    obtain ⟨o2, ho2⟩ := content_ok mw ws b hws rest 1 o1 (by omega)
      (fun r hr => by rw [hwf r hr, g1])
    simp only [vshTablePrint, List.head?_cons, vshTable.nrows, List.length_cons, hg, ho1,
      List.drop_succ_cons, List.drop_zero, ho2]
    exact ⟨_, rfl⟩

/-- C19: on a table built through `vshTableNew` and `vshTableRowAppend` every
access of `vshTableRowAppend` and `vshTablePrint` is within the allocated
storage. The table has its row 0, every row has as many cells as row 0, which
is the allocated size of `maxwidths` and of every `widths[i]`; so
`vshTableRowAppend` returns, `vshTableGetColumnsWidths` on the arrays that
`vshTablePrint` allocates returns 0 or -1, and `vshTablePrint` returns in both
modes: none of them ends in an access out of bounds. -/
theorem reachable_in_bounds (L : Locale) (table : vshTable) (args : List String)
    (header toStdout : Bool) (h : Reachable table) :
    ∃ row0, table.rows.head? = some row0 ∧
      (∀ row ∈ table.rows, row.ncells = row0.ncells) ∧
      (∃ r, vshTableRowAppend table args = Except.ok r) ∧
      (vshTableGetColumnsWidths L table (List.replicate row0.ncells 0)
          (List.replicate table.nrows (List.replicate row0.ncells 0)) header =
          Except.error Abort.negativeWidth ∨
        ∃ mw ws,
          vshTableGetColumnsWidths L table (List.replicate row0.ncells 0)
            (List.replicate table.nrows (List.replicate row0.ncells 0)) header =
            Except.ok (mw, ws)) ∧
      (∃ r, vshTablePrint L table header toStdout = Except.ok r) ∧
      vshTablePrint L table header toStdout ≠ Except.error Abort.outOfBounds := by
  obtain ⟨row0, h0, _, hall⟩ := reachable_invariant table h
  obtain ⟨rest, ht, hr⟩ := table_eq_of_head table row0 (reachable_wellFormed table h) h0
  subst ht
  obtain ⟨hg, r, hp⟩ := print_ok L row0 rest hr header toStdout
  refine ⟨row0, h0, hall, append_total _ row0 args h0, ?_, ⟨r, hp⟩, ?_⟩
  · simpa [vshTable.nrows] using hg
  · rw [hp]
    simp

theorem reachable_in_bounds_witness :
    ∃ row0, (vshTable.mk [⟨["Id", "Name"]⟩, ⟨["2", "rhel7.5"]⟩]).rows.head? = some row0 ∧
      (∀ row ∈ (vshTable.mk [⟨["Id", "Name"]⟩, ⟨["2", "rhel7.5"]⟩]).rows,
        row.ncells = row0.ncells) ∧
      (∃ r, vshTableRowAppend (vshTable.mk [⟨["Id", "Name"]⟩, ⟨["2", "rhel7.5"]⟩])
        ["3", "x", "y"] = Except.ok r) ∧
      (vshTableGetColumnsWidths sampleLocale
          (vshTable.mk [⟨["Id", "Name"]⟩, ⟨["2", "rhel7.5"]⟩]) (List.replicate row0.ncells 0)
          (List.replicate (vshTable.mk [⟨["Id", "Name"]⟩, ⟨["2", "rhel7.5"]⟩]).nrows
            (List.replicate row0.ncells 0)) true =
          Except.error Abort.negativeWidth ∨
        ∃ mw ws,
          vshTableGetColumnsWidths sampleLocale
            (vshTable.mk [⟨["Id", "Name"]⟩, ⟨["2", "rhel7.5"]⟩])
            (List.replicate row0.ncells 0)
            (List.replicate (vshTable.mk [⟨["Id", "Name"]⟩, ⟨["2", "rhel7.5"]⟩]).nrows
              (List.replicate row0.ncells 0)) true =
            Except.ok (mw, ws)) ∧
      (∃ r, vshTablePrint sampleLocale (vshTable.mk [⟨["Id", "Name"]⟩, ⟨["2", "rhel7.5"]⟩])
        true false = Except.ok r) ∧
      vshTablePrint sampleLocale (vshTable.mk [⟨["Id", "Name"]⟩, ⟨["2", "rhel7.5"]⟩])
        true false ≠ Except.error Abort.outOfBounds :=
  reachable_in_bounds sampleLocale (vshTable.mk [⟨["Id", "Name"]⟩, ⟨["2", "rhel7.5"]⟩])
    ["3", "x", "y"] true false
    (Reachable.appended (vshTable.mk [⟨["Id", "Name"]⟩]) ["2", "rhel7.5"]
      ⟨0, vshTable.mk [⟨["Id", "Name"]⟩, ⟨["2", "rhel7.5"]⟩], none⟩
      (Reachable.created ["Id", "Name"] (vshTable.mk [⟨["Id", "Name"]⟩]) rfl) rfl)

/-! ## The render with the header against the render without it -/

theorem zipWith_max_assoc : ∀ a b c : List Nat,
    List.zipWith max (List.zipWith max a b) c = List.zipWith max a (List.zipWith max b c) := by
  intro a
  induction a with
  | nil => intro b c; simp
  | cons x a ih =>
    intro b c
    cases b with
    | nil => simp
    | cons y b =>
      cases c with
      | nil => simp
      | cons z c => simp [ih b c, Nat.max_assoc]

theorem foldl_zipWith_max (nss : List (List Nat)) : ∀ a b : List Nat,
    nss.foldl (List.zipWith max) (List.zipWith max a b) =
      List.zipWith max a (nss.foldl (List.zipWith max) b) := by
  induction nss with
  | nil => intro a b; rfl
  | cons ns nss ih =>
    intro a b
    simp only [List.foldl_cons]
    rw [zipWith_max_assoc, ih]

theorem zipWith_max_absorb (a b : List Nat) (h : List.Forall₂ (fun x y => x ≤ y) a b) :
    List.zipWith max a b = b := by
  induction h with
  | nil => rfl
  | @cons x y a b hxy _ ih => simp [ih, Nat.max_eq_right hxy]

theorem zipWith_max_zeros_right : ∀ w : List Nat,
    List.zipWith max w (List.replicate w.length 0) = w := by
  intro w
  induction w with
  | nil => rfl
  | cons x w ih => simp [List.replicate_succ, ih]

theorem maxwidths_with_header (w0 : List Nat) (nss : List (List Nat)) :
    (w0 :: nss).foldl (List.zipWith max) (List.replicate w0.length 0) =
      List.zipWith max w0 (nss.foldl (List.zipWith max) (List.replicate w0.length 0)) := by
  simp only [List.foldl_cons]
  rw [zipWith_max_zeros]
  conv_lhs => rw [← zipWith_max_zeros_right w0]
  exact foldl_zipWith_max nss w0 _

theorem rowFields_length_le (a b : List Nat) (h : List.Forall₂ (fun x y => x ≤ y) a b) :
    ∀ (w : List Nat) (cells : List String),
      (rowFields a w cells).length ≤ (rowFields b w cells).length := by
  induction h with
  | nil => intro w cells; simp [rowFields]
  | @cons x y a b hxy _ ih =>
    intro w cells
    cases w with
    | nil => simp [rowFields]
    | cons v w =>
      cases cells with
      | nil => simp [rowFields]
      | cons c cells =>
        have := ih w cells
        simp only [rowFields, String.length_append, chars_length]
        omega

theorem rowFields_length_lt (a b : List Nat) (h : List.Forall₂ (fun x y => x ≤ y) a b) :
    ∀ (w : List Nat) (cells : List String),
      List.Forall₂ (fun x y => x ≤ y) w a → w.length = cells.length →
      (∃ (j : Nat) (x y : Nat), a[j]? = some x ∧ b[j]? = some y ∧ x < y) →
      (rowFields a w cells).length < (rowFields b w cells).length := by
  induction h with
  | nil => intro w cells _ _ hj; obtain ⟨j, x, y, hx, _⟩ := hj; simp at hx
  | @cons x y a b hxy hab ih =>
    intro w cells hw hlen hj
    cases hw with
    | @cons v _ w _ hvx hwa =>
      cases cells with
      | nil => simp at hlen
      | cons c cells =>
        simp only [List.length_cons, Nat.add_right_cancel_iff] at hlen
        simp only [rowFields, String.length_append, chars_length]
        obtain ⟨j, p, q, hp, hq, hpq⟩ := hj
        cases j with
        | zero =>
          simp only [List.getElem?_cons_zero, Option.some.injEq] at hp hq
          subst hp hq
          have := rowFields_length_le a b hab w cells
          omega
        | succ j =>
          simp only [List.getElem?_cons_succ] at hp hq
          have := ih w cells hwa hlen ⟨j, p, q, hp, hq, hpq⟩
          omega

theorem bodyLines_length_le (a b : List Nat) (h : List.Forall₂ (fun x y => x ≤ y) a b) :
    ∀ (rows : List vshTableRow) (ws : List (List Nat)),
      (bodyLines a rows ws).length ≤ (bodyLines b rows ws).length := by
  intro rows
  induction rows with
  | nil => intro ws; simp [bodyLines]
  | cons row rows ih =>
    intro ws
    cases ws with
    | nil => simp [bodyLines]
    | cons w ws =>
      have h1 := rowFields_length_le a b h w row.cells
      have h2 := ih ws
      simp only [bodyLines, rowLine, String.length_append]
      omega

theorem measureRows_cons (L : Locale) (row0 : vshTableRow) (rest : List vshTableRow)
    (nssT : List (List Nat)) (h : measureRows L (row0 :: rest) = Except.ok nssT) :
    ∃ w0 nss, nssT = w0 :: nss ∧ measureCells L row0.cells = Except.ok w0 ∧
      measureRows L rest = Except.ok nss := by
  unfold measureRows at h
  cases hrow : measureCells L row0.cells with
  | error e => simp [hrow] at h
  | ok ns =>
    cases hrest : measureRows L rest with
    | error e => simp [hrow, hrest] at h
    | ok mss =>
      simp only [hrow, hrest, Except.ok.injEq] at h
      exact ⟨ns, mss, h.symm, rfl, rfl⟩

theorem zipWith_max_getElem?_some : ∀ (a b : List Nat) (j x y : Nat),
    a[j]? = some x → b[j]? = some y → (List.zipWith max a b)[j]? = some (max x y) := by
  intro a
  induction a with
  | nil => intro b j x y h; simp at h
  | cons p a ih =>
    intro b j x y hx hy
    cases b with
    | nil => simp at hy
    | cons q b =>
      cases j with
      | zero =>
        simp only [List.getElem?_cons_zero, Option.some.injEq] at hx hy
        subst hx hy
        simp
      | succ j =>
        simp only [List.getElem?_cons_succ] at hx hy
        simpa using ih b j x y hx hy

/-- C20, as amended: for a well-formed table let `maxwidthsT` be the column
maxima of the render with the header and `maxwidthsF` those of the render
without it. The render with the header is the header line, the dividing line
and the body lines padded to `maxwidthsT`; the render without it is the body
lines padded to `maxwidthsF`. When no header cell is wider than the maximum of
its column over the data rows, the two lists of maxima and the two bodies are
the same, so the render with the header is the header line, the dividing line
and then the render without the header. When the table has a data row and some
header cell is wider than the maximum of its column over the data rows, every
body line of the render with the header is longer than the same line of the
other render, and the bodies differ. -/
theorem header_render_split (L : Locale) (table : vshTable) (row0 : vshTableRow)
    (maxwidthsT maxwidthsF : List Nat) (widthsT widthsF : List (List Nat))
    (hwf : table.wellFormed) (hrep : table.representable)
    (h0 : table.rows.head? = some row0)
    (hwT : vshTableGetColumnsWidths L table (List.replicate row0.ncells 0)
      (List.replicate table.nrows (List.replicate row0.ncells 0)) true =
        Except.ok (maxwidthsT, widthsT))
    (hwF : vshTableGetColumnsWidths L table (List.replicate row0.ncells 0)
      (List.replicate table.nrows (List.replicate row0.ncells 0)) false =
        Except.ok (maxwidthsF, widthsF)) :
    ∃ w0 bodyT bodyF,
      widthsT[0]? = some w0 ∧ measureCells L row0.cells = Except.ok w0 ∧
      widthsT.drop 1 = widthsF.drop 1 ∧
      bodyT = bodyLines maxwidthsT (table.rows.drop 1) (widthsT.drop 1) ∧
      bodyF = bodyLines maxwidthsF (table.rows.drop 1) (widthsF.drop 1) ∧
      vshTablePrintToString L table true =
        Except.ok ⟨some (rowLine maxwidthsT w0 row0 ++ dividerLine maxwidthsT ++ bodyT), []⟩ ∧
      vshTablePrintToString L table false = Except.ok ⟨some bodyF, []⟩ ∧
      (List.Forall₂ (fun h m => h ≤ m) w0 maxwidthsF →
        maxwidthsT = maxwidthsF ∧ bodyT = bodyF ∧
        vshTablePrintToString L table true =
          Except.ok ⟨some (rowLine maxwidthsF w0 row0 ++ dividerLine maxwidthsF ++ bodyF),
            []⟩) ∧
      (1 < table.nrows →
        (∃ (j : Nat) (h m : Nat), w0[j]? = some h ∧ maxwidthsF[j]? = some m ∧ m < h) →
        bodyT ≠ bodyF ∧
        ∀ (k : Nat) (row : vshTableRow) (w : List Nat),
          (table.rows.drop 1)[k]? = some row → (widthsF.drop 1)[k]? = some w →
          (rowLine maxwidthsF w row).length < (rowLine maxwidthsT w row).length ∧
          rowLine maxwidthsT w row ≠ rowLine maxwidthsF w row) := by
  obtain ⟨rest, ht, hr⟩ := table_eq_of_head table row0 hwf h0
  subst ht
  simp only [vshTable.nrows, List.length_cons] at hwT hwF ⊢
  obtain ⟨nssT, hmT, hmwT, hwsT⟩ := widths_measured L row0 rest hr true _ _ hwT
  obtain ⟨nssF, hmF, hmwF, hwsF⟩ := widths_measured L row0 rest hr false _ _ hwF
  simp only [if_true, List.nil_append] at hmT hwsT
  simp only [Bool.false_eq_true, if_false, List.singleton_append] at hmF hwsF
  obtain ⟨w0, nss, hnssT, hm0, hmR⟩ := measureRows_cons L row0 rest nssT hmT
  rw [hmR] at hmF
  simp only [Except.ok.injEq] at hmF
  subst hmF hnssT
  have hw0len : w0.length = row0.ncells := measureCells_length L _ _ hm0
  have hFr := measureRows_forall₂ L _ _ hmR
  have hl := measured_lengths L row0.ncells _ _ hr hFr
  obtain ⟨g1, _, g3⟩ := foldl_max_ge nss (List.replicate row0.ncells 0)
    (fun ns hns => by rw [hl ns hns, List.length_replicate])
  rw [← hmwF] at g1 g3
  rw [List.length_replicate] at g1
  have hmwT2 : maxwidthsT = List.zipWith max w0 maxwidthsF := by
    rw [hmwT, hmwF, ← hw0len]
    exact maxwidths_with_header w0 nss
  have hFT : List.Forall₂ (fun x y => x ≤ y) maxwidthsF maxwidthsT := by
    rw [hmwT2]
    exact zipWith_max_ge_right w0 maxwidthsF (by rw [hw0len, g1])
  obtain ⟨_, hpT⟩ := print_eq L row0 rest hr hrep true _ _ hwT
  obtain ⟨_, hpF⟩ := print_eq L row0 rest hr hrep false _ _ hwF
  subst hwsT hwsF
  simp only [if_true, List.headD_cons, List.drop_succ_cons, List.drop_zero,
    Bool.false_eq_true, if_false, String.empty_append] at hpT hpF
  refine ⟨w0, bodyLines maxwidthsT rest nss, bodyLines maxwidthsF rest nss, by simp, hm0,
    by simp, by simp, by simp, ?_, ?_, ?_, ?_⟩
  · rw [vshTablePrintToString, hpT]
  · rw [vshTablePrintToString, hpF]
  · intro hle
    have he : maxwidthsT = maxwidthsF := by
      rw [hmwT2]
      exact zipWith_max_absorb w0 maxwidthsF hle
    refine ⟨he, by rw [he], ?_⟩
    rw [vshTablePrintToString, hpT, he]
  · intro hrows hj
    obtain ⟨j, h, m, hh, hm, hlt⟩ := hj
    have hstrict : ∃ (j : Nat) (x y : Nat),
        maxwidthsF[j]? = some x ∧ maxwidthsT[j]? = some y ∧ x < y := by
      refine ⟨j, m, max h m, hm, ?_, ?_⟩
      · rw [hmwT2]
        exact zipWith_max_getElem?_some w0 maxwidthsF j h m hh hm
      · omega
    have hline : ∀ (k : Nat) (row : vshTableRow) (w : List Nat),
        rest[k]? = some row → nss[k]? = some w →
        (rowLine maxwidthsF w row).length < (rowLine maxwidthsT w row).length := by
      intro k row w hrow hw
      obtain ⟨w2, hw2, hmc⟩ := forall₂_getElem? _ _ _ hFr k row hrow
      rw [hw] at hw2
      simp only [Option.some.injEq] at hw2
      subst hw2
      have hwl := measureCells_length L _ _ hmc
      have := rowFields_length_lt maxwidthsF maxwidthsT hFT w row.cells
        (g3 w (List.getElem?_mem hw)) hwl hstrict
      simp only [rowLine, String.length_append]
      omega
    refine ⟨?_, ?_⟩
    · have hlen := List.Forall₂.length_eq hFr
      cases rest with
      | nil => simp at hrows
      | cons row1 rest1 =>
        cases nss with
        | nil => simp at hlen
        | cons w1 nss1 =>
          intro heq
          have h1 := hline 0 row1 w1 (by simp) (by simp)
          have h2 := bodyLines_length_le maxwidthsF maxwidthsT hFT rest1 nss1
          have h3 := congrArg String.length heq
          simp only [bodyLines, String.length_append] at h3
          omega
    · intro k row w hrow hw
      simp only [List.drop_succ_cons, List.drop_zero] at hrow hw
      have hlt2 := hline k row w hrow hw
      refine ⟨hlt2, ?_⟩
      intro heq
      rw [heq] at hlt2
      exact Nat.lt_irrefl _ hlt2

theorem header_render_split_witness :
    ∃ w0 bodyT bodyF,
      ([[2, 4, 5], [1, 8, 7], [1, 7, 7]] : List (List Nat))[0]? = some w0 ∧
      measureCells sampleLocale (⟨["Id", "Name", "State"]⟩ : vshTableRow).cells =
        Except.ok w0 ∧
      ([[2, 4, 5], [1, 8, 7], [1, 7, 7]] : List (List Nat)).drop 1 =
        ([[0, 0, 0], [1, 8, 7], [1, 7, 7]] : List (List Nat)).drop 1 ∧
      bodyT = bodyLines [2, 8, 7] (sampleTable.rows.drop 1)
        (([[2, 4, 5], [1, 8, 7], [1, 7, 7]] : List (List Nat)).drop 1) ∧
      bodyF = bodyLines [1, 8, 7] (sampleTable.rows.drop 1)
        (([[0, 0, 0], [1, 8, 7], [1, 7, 7]] : List (List Nat)).drop 1) ∧
      vshTablePrintToString sampleLocale sampleTable true =
        Except.ok ⟨some (rowLine [2, 8, 7] w0 ⟨["Id", "Name", "State"]⟩ ++
          dividerLine [2, 8, 7] ++ bodyT), []⟩ ∧
      vshTablePrintToString sampleLocale sampleTable false = Except.ok ⟨some bodyF, []⟩ ∧
      (List.Forall₂ (fun h m => h ≤ m) w0 [1, 8, 7] →
        ([2, 8, 7] : List Nat) = [1, 8, 7] ∧ bodyT = bodyF ∧
        vshTablePrintToString sampleLocale sampleTable true =
          Except.ok ⟨some (rowLine [1, 8, 7] w0 ⟨["Id", "Name", "State"]⟩ ++
            dividerLine [1, 8, 7] ++ bodyF), []⟩) ∧
      (1 < sampleTable.nrows →
        (∃ (j : Nat) (h m : Nat), w0[j]? = some h ∧
          ([1, 8, 7] : List Nat)[j]? = some m ∧ m < h) →
        bodyT ≠ bodyF ∧
        ∀ (k : Nat) (row : vshTableRow) (w : List Nat),
          (sampleTable.rows.drop 1)[k]? = some row →
          (([[0, 0, 0], [1, 8, 7], [1, 7, 7]] : List (List Nat)).drop 1)[k]? = some w →
          (rowLine [1, 8, 7] w row).length < (rowLine [2, 8, 7] w row).length ∧
          rowLine [2, 8, 7] w row ≠ rowLine [1, 8, 7] w row) :=
  header_render_split sampleLocale sampleTable ⟨["Id", "Name", "State"]⟩ [2, 8, 7] [1, 8, 7]
    [[2, 4, 5], [1, 8, 7], [1, 7, 7]] [[0, 0, 0], [1, 8, 7], [1, 7, 7]]
    (by decide) (by decide) rfl rfl rfl

/-- C20, the claim as stated fails on a table without data rows: the header
cell of the third table of `testNTables` without its rows has the width 2,
above the maximum 0 of its column over no data rows, and the two renders have
the same body, the empty one. -/
theorem header_render_split_counterexample :
    vshTableGetColumnsWidths sampleLocale { rows := [⟨["Id"]⟩] } [0] [[0]] true =
        Except.ok ([2], [[2]]) ∧
      vshTableGetColumnsWidths sampleLocale { rows := [⟨["Id"]⟩] } [0] [[0]] false =
        Except.ok ([0], [[0]]) ∧
      (0 : Nat) < 2 ∧
      vshTablePrintToString sampleLocale { rows := [⟨["Id"]⟩] } true =
        Except.ok ⟨some (rowLine [2] [2] ⟨["Id"]⟩ ++ dividerLine [2] ++ bodyLines [2] [] []),
          []⟩ ∧
      vshTablePrintToString sampleLocale { rows := [⟨["Id"]⟩] } false =
        Except.ok ⟨some (bodyLines [0] [] []), []⟩ ∧
      bodyLines [2] [] [] = bodyLines [0] [] [] := by
  refine ⟨rfl, rfl, by decide, rfl, rfl, rfl⟩

end VshTable
